import Mathlib

/-!
# Verification of the Expanded Auditing Control core pipeline

A shallow embedding in Lean 4 of the core data model and operations of the
audit-history enrichment pipeline (TypeScript source), together with proofs
and refutations of the specification claims about it.

Modelling conventions:
* JavaScript `undefined` is modelled by `Option.none`; a JS object is an
  association list in insertion order (string keys, `for ... in` iterates in
  insertion order for non-numeric keys); `Record` assignment updates the
  first matching key in place or appends.
* A JS `Date` is modelled as `JSDate` carrying an allocation identity `oid`
  (distinct `new Date(...)` calls always produce distinct objects, so `===`
  between two separately constructed dates is `oid` equality) and the parsed
  numeric timestamp `time` (used by `<` and `>` which compare `valueOf()`).
* Thrown JS `TypeError`s (property access on `null`/`undefined` values, or
  calling a method of `undefined`) are modelled with `Except Unit`;
  `ControlOperationalError` is modelled structurally.
* Numbers that the source uses as integral action codes are modelled as `Int`.
-/

namespace ExpandedAuditingControl

/-! ## JSON values (the result of `JSON.parse`) -/

/-- A parsed JSON value. `obj` keeps key/value pairs in insertion order. -/
inductive JsonValue where
  | null : JsonValue
  | bool : Bool → JsonValue
  | str : String → JsonValue
  | num : Int → JsonValue
  | arr : List JsonValue → JsonValue
  | obj : List (String × JsonValue) → JsonValue

/-- `v === null`. -/
def isNullJson : JsonValue → Bool
  | .null => true
  | _ => false

/-- First value bound to key `k` in an association list, `none` otherwise. -/
def findField : List (String × JsonValue) → String → Option JsonValue
  | [], _ => none
  | (k', v) :: rest, k => if k' = k then some v else findField rest k

/-- JS property read `o[k]`: defined only on objects, `undefined` otherwise
(property reads on strings/numbers/booleans/arrays of a non-index key give
`undefined`; reads on `null` are handled separately where they can occur). -/
def getField : JsonValue → String → Option JsonValue
  | .obj kvs, k => findField kvs k
  | _, _ => none

/-- JS truthiness of a JSON value. -/
def jsTruthy : JsonValue → Bool
  | .null => false
  | .bool b => b
  | .str s => s ≠ ""
  | .num n => n ≠ 0
  | .arr _ => true
  | .obj _ => true

/-- `typeof v === "object"` for a JSON value (`null`, arrays and objects). -/
def typeofIsObject : JsonValue → Bool
  | .null => true
  | .arr _ => true
  | .obj _ => true
  | _ => false

/-! ## ServiceEntityQueryParser (src: serviceEntityQueryParser.ts)

The source threads a static mutable flag `_includesManyToMany` through the
recursive validation; the embedding passes the flag in and returns the
updated flag alongside the result.  The result `Except Unit (Option String)`
is `.error ()` for a JS `TypeError` (an expand-array item that is `null`),
`.ok (some msg)` for a validation error message and `.ok none` for success. -/

def baseErrorMessage : String := "Unable to parse control config json."

def maximumExpandDepth : Nat := 4

def manyToManyErrorMessage : String :=
  "WebApi supports expansion of N:N relationships and nested" ++
  " expansions. However, it does not support both in the same " ++
  "query"

def depthExceededMessage : String :=
  "Maximum expand depth (4) exceeded."

def expandArrayErrorMessage : String :=
  "Expand arrays must include at least 1 element"

def propertyNameErrorMessage : String :=
  "Expand items must include a propertyName definition"

def relatedEntityErrorMessage : String :=
  "Expand items must include a relatedEntityLogicalName definition"

def isManyToManyErrorMessage : String :=
  "isManyToMany must be a boolean"

/-- `candidate.trim() == ""`: the string contains only whitespace (the trim
itself is not needed, only its comparison with the empty string). -/
def isBlankString (s : String) : Bool :=
  s.data.all Char.isWhitespace

/-- `isValidString`: value is a string whose trim is non-empty.  The argument
is `Option JsonValue` because the source applies it to possibly-`undefined`
property reads. -/
def isValidString : Option JsonValue → Bool
  | some (.str s) => !(isBlankString s)
  | _ => false

/-- `isValidBool`: value is a boolean. -/
def isValidBool : Option JsonValue → Bool
  | some (.bool _) => true
  | _ => false

/-- Truthiness of a possibly-undefined value (used for `isManyToMany`). -/
def jsTruthyOpt : Option JsonValue → Bool
  | none => false
  | some v => jsTruthy v

/-- `validateExpandItem(candidateExpandItem, depth)` with the recursive call
to `validateExpandProperty` abstracted as `recurse`.  A `null` item raises a
JS `TypeError` when its properties are read (`.error ()`). -/
def validateExpandItemGo
    (recurse : Bool → Option JsonValue → Nat → Except Unit (Option String) × Bool)
    (flag : Bool) (item : JsonValue) (depth : Nat) :
    Except Unit (Option String) × Bool :=
  if isNullJson item then (.error (), flag)
  else if !(isValidString (getField item "propertyName")) then
    (.ok (some propertyNameErrorMessage), flag)
  else if !(isValidString (getField item "relatedEntityLogicalName")) then
    (.ok (some relatedEntityErrorMessage), flag)
  else if !(isValidBool (getField item "isManyToMany")) then
    (.ok (some isManyToManyErrorMessage), flag)
  else
    let flag' := if jsTruthyOpt (getField item "isManyToMany") then true
      else flag
    recurse flag' (getField item "expand") (depth + 1)

/-- The `for (const item of expandArray)` loop of `validateExpandProperty`:
validates items in order, threading the flag, and stops at the first error. -/
def walkExpandList
    (h : Bool → JsonValue → Except Unit (Option String) × Bool) :
    Bool → List JsonValue → Except Unit (Option String) × Bool
  | flag, [] => (.ok none, flag)
  | flag, item :: rest =>
    match h flag item with
    | (.error e, f) => (.error e, f)
    | (.ok (some msg), f) => (.ok (some msg), f)
    | (.ok none, f) => walkExpandList h f rest

/-- `validateExpandProperty(expandCandidate, depth)` with the
`_includesManyToMany` flag threaded explicitly.  The extra `fuel` argument
counts remaining recursion depth, making the recursion structural so the
definition computes.  The source recursion is intrinsically depth-bounded:
a property at depth above 4 returns an error before recursing, so recursion
enters properties at depths `depth, depth+1, ..., 5` only, and any fuel with
`(6 - depth) ⊔ 1 ≤ fuel` is enough for the fuel-exhausted branch to be
unreachable (`validateExpandPropertyFuel_mono` below). -/
def validateExpandPropertyFuel :
    Nat → Bool → Option JsonValue → Nat → Except Unit (Option String) × Bool
  | 0, flag, _, _ => (.ok none, flag)
  | fuel + 1, flag, cand, depth =>
    match cand with
    | none => (.ok none, flag)
    | some (.arr items) =>
      if items.length < 1 then (.ok (some expandArrayErrorMessage), flag)
      else if 1 < depth ∧ flag then (.ok (some manyToManyErrorMessage), flag)
      else if maximumExpandDepth < depth then
        (.ok (some depthExceededMessage), flag)
      else
        walkExpandList
          (fun f item => validateExpandItemGo
            (fun f' c d => validateExpandPropertyFuel fuel f' c d) f item depth)
          flag items
    | some _ => (.ok (some expandArrayErrorMessage), flag)

/-- `validateExpandProperty` with the fuel instantiated to a sufficient
bound for its starting depth. -/
def validateExpandProperty (flag : Bool) (cand : Option JsonValue)
    (depth : Nat) : Except Unit (Option String) × Bool :=
  validateExpandPropertyFuel ((6 - depth) ⊔ 1) flag cand depth

/-- Outcome of `ServiceEntityQueryParser.parse`. -/
inductive ParseOutcome where
  | success : JsonValue → ParseOutcome
  | opError : String → ParseOutcome
  | jsTypeError : ParseOutcome

/-- `ServiceEntityQueryParser.parse` applied to an already-JSON-parsed config
value (the `JSON.parse` string-decoding step is elided; a syntax error there
is a separate `ControlOperationalError` path not modelled here).  The flag is
reset to `false` on entry, as in the source. -/
def parseConfig (config : JsonValue) : ParseOutcome :=
  if !(jsTruthy config) ∨ !(typeofIsObject config) then
    .opError baseErrorMessage
  else if !(isValidString (getField config "primaryEntityLogicalName")) then
    .opError (baseErrorMessage ++ " " ++ "primaryEntityLogicalName is required")
  else
    match validateExpandProperty false (getField config "expand") 1 with
    | (.error _, _) => .jsTypeError
    | (.ok (some msg), _) => .opError (baseErrorMessage ++ " " ++ msg)
    | (.ok none, _) => .success config

/-! ## Query descriptor trees

Specification-side vocabulary for the claims about `parse`: a well-shaped
descriptor tree (`ServiceExpandedItem` nodes), its serialization to the JSON
value the parser actually receives, its expansion depth, and structural
validity/many-to-many predicates.  Mutual inductives are used (instead of
`Option (List _)`) so that all functions are structurally recursive and
compute. -/

mutual

/-- A structurally well-shaped expand item:
`{propertyName, relatedEntityLogicalName, isManyToMany, expand?}`. -/
inductive ExpandNode : Type where
  | mk : (propertyName relatedEntityLogicalName : String) →
      (isManyToMany : Bool) → ExpandChildren → ExpandNode

/-- The optional nested `expand` array of an expand item. -/
inductive ExpandChildren : Type where
  | absent : ExpandChildren
  | present : ExpandNodeList → ExpandChildren

/-- A list of expand items. -/
inductive ExpandNodeList : Type where
  | nil : ExpandNodeList
  | cons : ExpandNode → ExpandNodeList → ExpandNodeList

end

mutual

/-- JSON serialization of an expand item. -/
def ExpandNode.toJson : ExpandNode → JsonValue
  | .mk p r m c =>
    .obj ([("propertyName", .str p), ("relatedEntityLogicalName", .str r),
      ("isManyToMany", .bool m)] ++ ExpandChildren.toFields c)

/-- The `expand` field contributed by an optional nested expand array. -/
def ExpandChildren.toFields : ExpandChildren → List (String × JsonValue)
  | .absent => []
  | .present l => [("expand", .arr (ExpandNodeList.toJson l))]

/-- JSON serialization of a list of expand items. -/
def ExpandNodeList.toJson : ExpandNodeList → List JsonValue
  | .nil => []
  | .cons n rest => ExpandNode.toJson n :: ExpandNodeList.toJson rest

end

mutual

/-- Nesting contributed by an expand item below its own level: `0` when it
has no nested expand array, otherwise the expansion depth of that array. -/
def ExpandNode.subDepth : ExpandNode → Nat
  | .mk _ _ _ c => ExpandChildren.depth c

/-- Expansion depth of an optional nested expand array. -/
def ExpandChildren.depth : ExpandChildren → Nat
  | .absent => 0
  | .present l => ExpandNodeList.expansionDepth l

/-- Expansion depth of an expand array: one level for the array itself plus
the deepest nesting of its items.  A descriptor whose root expand array has
expansion depth `k` has `k` levels of expand arrays. -/
def ExpandNodeList.expansionDepth : ExpandNodeList → Nat
  | .nil => 1
  | .cons n rest =>
    max (1 + ExpandNode.subDepth n) (ExpandNodeList.expansionDepth rest)

end

mutual

/-- Structural validity of an expand item: non-blank name strings and a
valid nested expand array when one is present. -/
def ExpandNode.valid : ExpandNode → Bool
  | .mk p r _ c =>
    !(isBlankString p) && !(isBlankString r) && ExpandChildren.valid c

/-- Structural validity of an optional nested expand array: when present it
must be non-empty and its items valid. -/
def ExpandChildren.valid : ExpandChildren → Bool
  | .absent => true
  | .present .nil => false
  | .present (.cons n rest) =>
    ExpandNode.valid n && ExpandNodeList.allValid rest

/-- All items of a list are structurally valid. -/
def ExpandNodeList.allValid : ExpandNodeList → Bool
  | .nil => true
  | .cons n rest => ExpandNode.valid n && ExpandNodeList.allValid rest

end

mutual

/-- No `isManyToMany:true` node anywhere in the item's subtree. -/
def ExpandNode.noManyToMany : ExpandNode → Bool
  | .mk _ _ m c => !m && ExpandChildren.noManyToMany c

/-- No `isManyToMany:true` node in an optional nested expand array. -/
def ExpandChildren.noManyToMany : ExpandChildren → Bool
  | .absent => true
  | .present l => ExpandNodeList.noManyToMany l

/-- No `isManyToMany:true` node anywhere below the list. -/
def ExpandNodeList.noManyToMany : ExpandNodeList → Bool
  | .nil => true
  | .cons n rest =>
    ExpandNode.noManyToMany n && ExpandNodeList.noManyToMany rest

end

/-- The JSON descriptor with the given primary entity name and root expand
array. -/
def mkDescriptor (primary : String) (l : ExpandNodeList) : JsonValue :=
  .obj [("primaryEntityLogicalName", .str primary),
    ("expand", .arr (ExpandNodeList.toJson l))]

/-! ### Concrete descriptors for the parser claims -/

/-- A descriptor whose root expand array holds first a node with a nested
(depth-2) expansion and second an `isManyToMany:true` node: the nested
expansion is traversed while `_includesManyToMany` is still `false`. -/
def nestedThenManyToManyInput : JsonValue := .obj [
  ("primaryEntityLogicalName", .str "account"),
  ("expand", .arr [
    .obj [("propertyName", .str "contacts"),
      ("relatedEntityLogicalName", .str "contact"),
      ("isManyToMany", .bool false),
      ("expand", .arr [.obj [("propertyName", .str "tasks"),
        ("relatedEntityLogicalName", .str "task"),
        ("isManyToMany", .bool false)]])],
    .obj [("propertyName", .str "accountleads"),
      ("relatedEntityLogicalName", .str "lead"),
      ("isManyToMany", .bool true)]])]

/-- A single-node expand list with no nesting. -/
def leafNode (p : String) : ExpandNode :=
  .mk p p false .absent

/-- A single-node expand list nesting the given child list. -/
def nestNode (p : String) (child : ExpandNodeList) : ExpandNode :=
  .mk p p false (.present child)

/-- A five-level chain of expand arrays (expansion depth 5). -/
def chain5 : ExpandNodeList :=
  .cons (nestNode "a" (.cons (nestNode "b" (.cons (nestNode "c"
    (.cons (nestNode "d" (.cons (leafNode "e") .nil)) .nil)) .nil)) .nil)) .nil

/-- An expand list of expansion depth 5 whose first node is
`isManyToMany:true`, so the flag is set before the nested arrays are
entered. -/
def manyToManyThenDeepList : ExpandNodeList :=
  .cons (.mk "m" "m" true .absent) chain5

/-- A descriptor of expansion depth 5 whose root expand array starts with an
`isManyToMany:true` node. -/
def manyToManyThenDeepInput : JsonValue :=
  mkDescriptor "account" manyToManyThenDeepList

/-! ## Audit data model (src: controlTypes.ts, auditTableTypes.ts,
webApiRequestAndResponseTypes.ts)

JS records with string values are association lists in insertion order; a
missing key reads as `none` (undefined). -/

/-- First value bound to key `k` in a string-keyed record. -/
def recGet {α : Type} : List (String × α) → String → Option α
  | [], _ => none
  | (k', v) :: rest, k => if k' = k then some v else recGet rest k

/-- JS record assignment `m[k] = v`: overwrites the first binding of `k` in
place, else appends (JS objects keep the original insertion position of an
overwritten key). -/
def recordSet {α : Type} : List (String × α) → String → α → List (String × α)
  | [], k, v => [(k, v)]
  | (k', v') :: rest, k, v =>
    if k' = k then (k, v) :: rest else (k', v') :: recordSet rest k v

/-- Truthiness of a possibly-undefined JS string. -/
def jsTruthyStr : Option String → Bool
  | none => false
  | some s => s ≠ ""

/-- `ControlEntityReference {id, logicalName}`.  `id` is `Option String`
because the source can store an undefined id in a lookup reference (reading
`values[attributeKey]` for a key present only on the other side). -/
structure ControlEntityReference where
  id : Option String
  logicalName : String
deriving DecidableEq

/-- `ChangeDataItemValue {text, lookup}`. -/
structure ChangeDataItemValue where
  text : String
  lookup : Option ControlEntityReference
deriving DecidableEq

/-- `IRawChangeDataItem`. -/
structure IRawChangeDataItem where
  changedFieldLogicalName : String
  oldValueRaw : ChangeDataItemValue
  newValueRaw : ChangeDataItemValue
deriving DecidableEq

/-- `IRawTargetDataItem`. -/
structure IRawTargetDataItem where
  changedEntityLogicalName : String
  changedEntityId : String
  oldValueRaw : ChangeDataItemValue
  newValueRaw : ChangeDataItemValue
deriving DecidableEq

/-- A JS `Date`: `oid` is the allocation identity (each `new Date(...)`
yields a distinct object, and `===` between dates compares identity), `time`
the parsed numeric timestamp (compared by `<`/`>` via `valueOf()`). -/
structure JSDate where
  oid : Nat
  time : Int
deriving DecidableEq

/-- `ServiceAuditRecord` (parsed audit metadata). -/
structure ServiceAuditRecord where
  id : String
  userFullname : String
  userId : String
  actionValue : Int
  actionText : String
  recordId : String
  recordLogicalName : String
  recordTypeDisplayName : String
  recordPrimaryName : String
  createdOn : JSDate
  createdOnLocalisedString : String
deriving DecidableEq

/-- `WebApiAuditRecord`: the raw audit record.  Fields whose source keys are
annotated (e.g. `"action@OData.Community.Display.V1.FormattedValue"`) are
named with a `Formatted` suffix:
`actionFormatted`, `createdonFormatted`, `objecttypecodeFormatted`,
`objectidFormatted` (for `_objectid_value@...FormattedValue`) and
`useridFormatted` (for `_userid_value@...FormattedValue`). -/
structure WebApiAuditRecord where
  auditid : String
  action : Int
  actionFormatted : String
  createdon : String
  createdonFormatted : String
  _objectid_value : String
  objecttypecode : String
  objecttypecodeFormatted : String
  objectidFormatted : String
  _userid_value : String
  useridFormatted : String
deriving DecidableEq

/-- `WebApiRecordChangeHistoryAuditDetail`: audit record plus optional
old/new value maps and optional target records. -/
structure WebApiRecordChangeHistoryAuditDetail where
  AuditRecord : WebApiAuditRecord
  OldValue : Option (List (String × String))
  NewValue : Option (List (String × String))
  TargetRecords : Option (List (List (String × String)))
deriving DecidableEq

/-! ## AuditDetailItem (src: src/unnamed/part_009, auditDetailItem.ts) -/

def formattedValueSuffix : String :=
  "@OData.Community.Display.V1.FormattedValue"

def lookupLogicalNameSuffix : String :=
  "@Microsoft.Dynamics.CRM.lookuplogicalname"

def odataTypeKey : String := "@odata.type"

def changedFieldPlaceholder : String := "%CHANGED_FIELD%"

def typeNamespacePrefix : String := "#Microsoft.Dynamics.CRM."

def associateEntitiesAction : Int := 33

def disassociateEntitiesAction : Int := 34

/-- `s.startsWith(pat)` on the underlying character lists. -/
def jsStartsWith (s pat : String) : Bool :=
  pat.data.isPrefixOf s.data

/-- `s.endsWith(pat)` on the underlying character lists. -/
def jsEndsWith (s pat : String) : Bool :=
  pat.data.isSuffixOf s.data

/-- `isPropertyAnnotation`: the key contains the `"@"` prefix character. -/
def isPropertyAnnotationKey (property : String) : Bool :=
  property.data.contains '@'

/-- `new Date(s)` with a fresh object identity: the numeric timestamp comes
from the platform's date parser, abstracted as `dateParse`. -/
def parseAuditRecord (dateParse : String → Int) (dateOid : Nat)
    (a : WebApiAuditRecord) : ServiceAuditRecord :=
  { id := a.auditid
    userFullname := a.useridFormatted
    userId := a._userid_value
    actionValue := a.action
    actionText := a.actionFormatted
    recordId := a._objectid_value
    recordLogicalName := a.objecttypecode
    recordTypeDisplayName := a.objecttypecodeFormatted
    recordPrimaryName := a.objectidFormatted
    createdOn := { oid := dateOid, time := dateParse a.createdon }
    createdOnLocalisedString := a.createdonFormatted }

/-- The regex test `/^_.*_value$/.test(attributeKey)`. -/
def lookupKeyPatternTest (s : String) : Bool :=
  jsStartsWith s "_" && jsEndsWith ⟨s.data.drop 1⟩ "_value"

/-- `parseChangeItemLookupValue(attributeKey, values)`. -/
def parseChangeItemLookupValue (attributeKey : String)
    (values : List (String × String)) : Option ControlEntityReference :=
  match recGet values (attributeKey ++ lookupLogicalNameSuffix) with
  | none => none
  | some logicalName =>
    if logicalName = "" ∨ !(lookupKeyPatternTest attributeKey) then none
    else some { logicalName := logicalName, id := recGet values attributeKey }

/-- `parseChangeItemTextValue(attributeKey, values, doRequireFormattedValue)`. -/
def parseChangeItemTextValue (attributeKey : String)
    (values : List (String × String)) (doRequireFormattedValue : Bool) :
    String :=
  match recGet values attributeKey with
  | none => "-"
  | some v =>
    if v = "" then "-"
    else
      match recGet values (attributeKey ++ formattedValueSuffix) with
      | none => if !doRequireFormattedValue then v else changedFieldPlaceholder
      | some fv =>
        if fv = "" then
          if !doRequireFormattedValue then v else changedFieldPlaceholder
        else fv

/-- `parseChangeItemValue(attributeKey, values)`. -/
def parseChangeItemValue (attributeKey : String)
    (values : List (String × String)) : ChangeDataItemValue :=
  let lookupValue := parseChangeItemLookupValue attributeKey values
  { text := parseChangeItemTextValue attributeKey values lookupValue.isSome
    lookup := lookupValue }

/-- `parseChangedFieldLookupName(attributeKey)`: strips the `"_..._value"`
lookup naming convention (`"_value".length = 6`). -/
def parseChangedFieldLookupName (attributeKey : String) : String :=
  if jsStartsWith attributeKey "_" && jsEndsWith attributeKey "_value" then
    ⟨(attributeKey.data.take (attributeKey.data.length - 6)).drop 1⟩
  else attributeKey

/-- `parseChangeItem(attributeKey, oldValues, newValues)`. -/
def parseChangeItem (attributeKey : String)
    (oldValues newValues : List (String × String)) : IRawChangeDataItem :=
  { changedFieldLogicalName := parseChangedFieldLookupName attributeKey
    oldValueRaw := parseChangeItemValue attributeKey oldValues
    newValueRaw := parseChangeItemValue attributeKey newValues }

/-- Key set union in JS `Set` insertion order (first occurrence kept). -/
def dedupFirstAux (seen : List String) : List String → List String
  | [] => []
  | k :: rest =>
    if k ∈ seen then dedupFirstAux seen rest
    else k :: dedupFirstAux (k :: seen) rest

/-- `new Set([...Object.keys(old), ...Object.keys(new)])` in iteration
order. -/
def changedAttributeKeys (oldValues newValues : List (String × String)) :
    List String :=
  dedupFirstAux [] (oldValues.map Prod.fst ++ newValues.map Prod.fst)

/-- `parseChangeData(oldValues, newValues)`: `undefined` unless both value
maps are present (an empty object is truthy, so two empty maps give an
empty — but defined — change list). -/
def parseChangeData (oldValues newValues : Option (List (String × String))) :
    Option (List IRawChangeDataItem) :=
  match oldValues, newValues with
  | some old, some new =>
    some (((changedAttributeKeys old new).filter
        (fun k => !(isPropertyAnnotationKey k))).map
      (fun k => parseChangeItem k old new))
  | _, _ => none

/-- `parseTargetRecordsItemValue(id, type, targetAction, actualAction)`. -/
def parseTargetRecordsItemValue (id : String) (type : String)
    (targetAction actualAction : Int) : ChangeDataItemValue :=
  if targetAction ≠ actualAction then { text := "-", lookup := none }
  else
    { text := type
      lookup := some { id := some id, logicalName := type } }

/-- Remove the first occurrence of `pat` from a character list
(`String.prototype.replace` with a string pattern and empty replacement). -/
def removeFirstOccurrence (pat : List Char) : List Char → List Char
  | [] => []
  | c :: cs =>
    if pat.isPrefixOf (c :: cs) then (c :: cs).drop pat.length
    else c :: removeFirstOccurrence pat cs

/-- `s.replace(pat, "")`: removes the first occurrence only. -/
def jsReplaceFirst (s pat : String) : String :=
  ⟨removeFirstOccurrence pat.data s.data⟩

/-- The `for (const property in targetRecord)` loop: the first key ending in
`"id"`. -/
def findFirstIdKey : List (String × String) → Option String
  | [] => none
  | (k, _) :: rest =>
    if jsEndsWith k "id" then some k else findFirstIdKey rest

/-- `targetRecord[property]` for the first key ending in `"id"`. -/
def firstIdValue (targetRecord : List (String × String)) : Option String :=
  match findFirstIdKey targetRecord with
  | none => none
  | some k => recGet targetRecord k

/-- The loop body of `parseTargetRecords`: one parsed change per target
record carrying a truthy type and id; a missing `"@odata.type"` key makes
`.replace` throw a JS `TypeError` (`.error ()`). -/
def parseTargetRecordsItems (actualAction : Int) :
    List (List (String × String)) → Except Unit (List IRawTargetDataItem)
  | [] => .ok []
  | targetRecord :: rest =>
    match recGet targetRecord odataTypeKey with
    | none => .error ()
    | some fullyQualifiedType =>
      let type := jsReplaceFirst fullyQualifiedType typeNamespacePrefix
      match firstIdValue targetRecord with
      | none => parseTargetRecordsItems actualAction rest
      | some id =>
        if type = "" ∨ id = "" then parseTargetRecordsItems actualAction rest
        else
          match parseTargetRecordsItems actualAction rest with
          | .error e => .error e
          | .ok items =>
            .ok ({ changedEntityLogicalName := type
                   changedEntityId := id
                   oldValueRaw := parseTargetRecordsItemValue id type
                     disassociateEntitiesAction actualAction
                   newValueRaw := parseTargetRecordsItemValue id type
                     associateEntitiesAction actualAction } :: items)

/-- `parseTargetRecords(auditDetailItem)`: only for actions 33/34 with a
defined `TargetRecords`; an empty result list yields `undefined`. -/
def parseTargetRecords (d : WebApiRecordChangeHistoryAuditDetail) :
    Except Unit (Option (List IRawTargetDataItem)) :=
  match d.TargetRecords with
  | none => .ok none
  | some targetRecords =>
    if d.AuditRecord.action = associateEntitiesAction ∨
        d.AuditRecord.action = disassociateEntitiesAction then
      match parseTargetRecordsItems d.AuditRecord.action targetRecords with
      | .error e => .error e
      | .ok [] => .ok none
      | .ok items => .ok (some items)
    else .ok none

/-- The constructed `AuditDetailItem`. -/
structure AuditDetailItem where
  auditRecord : ServiceAuditRecord
  changeData : Option (List IRawChangeDataItem)
  targetRecords : Option (List IRawTargetDataItem)
deriving DecidableEq

/-- The `AuditDetailItem` constructor: parses the audit record, the change
data and the target records (the last can throw). -/
def mkAuditDetailItem (dateParse : String → Int) (dateOid : Nat)
    (d : WebApiRecordChangeHistoryAuditDetail) : Except Unit AuditDetailItem :=
  match parseTargetRecords d with
  | .error e => .error e
  | .ok targetRecords =>
    .ok { auditRecord := parseAuditRecord dateParse dateOid d.AuditRecord
          changeData := parseChangeData d.OldValue d.NewValue
          targetRecords := targetRecords }

/-- `AuditDetailItem.comparer(a, b)`: `undefined` sorts last; dates are
compared with `===` (object identity — `oid`) for equality and `>` (numeric
`valueOf()` — `time`) for order. -/
def AuditDetailItem.comparer (a b : Option AuditDetailItem) : Int :=
  match a, b with
  | none, none => 0
  | _, none => 1
  | none, _ => -1
  | some a, some b =>
    if a.auditRecord.createdOn.oid = b.auditRecord.createdOn.oid then 0
    else if b.auditRecord.createdOn.time < a.auditRecord.createdOn.time then 1
    else -1

/-! ## mergeSortedArrays (src: utils/helpers.ts) -/

/-- `arr[i]` for the current index of a merge cursor: out-of-range reads give
`undefined`, indistinguishable from an `undefined` element. -/
def jsHead {T : Type} : List (Option T) → Option T
  | [] => none
  | x :: _ => x

/-- The `while (sortedIndex < sorted.length || toMergeIndex < toMerge.length)`
loop of `mergeSortedArrays`.  Each iteration pushes one element (possibly
`undefined`) and advances one cursor.  The JS loop need not terminate for an
adversarial comparer (it can push `undefined` forever when the comparer
keeps preferring an exhausted side); the fuel bounds the iterations, and
equals the exact iteration count whenever the comparer sorts `undefined`
last, which all theorems below assume or prove. -/
def mergeLoop {T : Type} (cmp : Option T → Option T → Int) :
    Nat → List (Option T) → List (Option T) → List (Option T)
  | 0, _, _ => []
  | _ + 1, [], [] => []
  | fuel + 1, s, t =>
    if 0 ≤ cmp (jsHead s) (jsHead t) then
      jsHead s :: mergeLoop cmp fuel s.tail t
    else jsHead t :: mergeLoop cmp fuel s t.tail

/-- `mergeSortedArrays(arraysToMerge, comparer)`: starts from a copy of the
first array and two-pointer-merges each following non-empty array into the
accumulator.  Elements are modelled as `Option T` since the JS loop can in
general push `undefined` into the output. -/
def mergeSortedArrays {T : Type} (arraysToMerge : List (List T))
    (cmp : Option T → Option T → Int) : List (Option T) :=
  match arraysToMerge with
  | [] => []
  | first :: rest =>
    rest.foldl
      (fun sorted toMerge =>
        if toMerge.length = 0 then sorted
        else mergeLoop cmp (sorted.length + toMerge.length) sorted
          (toMerge.map some))
      (first.map some)

/-- Descending sortedness of a stream with respect to the comparer: every
consecutive pair compares `≥ 0`. -/
def sortedDescending {T : Type} (cmp : Option T → Option T → Int)
    (l : List T) : Prop :=
  List.Chain' (fun a b => 0 ≤ cmp (some a) (some b)) l

/-- Reference two-pointer merge used to reason about `mergeLoop`. -/
def mergeRec {T : Type} (cmp : Option T → Option T → Int) :
    List T → List T → List T
  | [], t => t
  | s, [] => s
  | x :: xs, y :: ys =>
    if 0 ≤ cmp (some x) (some y) then x :: mergeRec cmp xs (y :: ys)
    else y :: mergeRec cmp (x :: xs) ys

/-! ## EntityMetadataCollection (src: entityMetadataCollection.ts)

The collection's local-storage slot is modelled as part of its state
(`persisted`), holding the already-JSON-parsed store blob; the JSON
string round-trip is the identity here, and a blob that is absent or fails
to parse follows the empty-map path, as in the source. -/

/-- `ControlAttributeDefinition`. -/
structure ControlAttributeDefinition where
  logicalName : String
  displayName : String
deriving DecidableEq

/-- Cached metadata for one entity type. -/
structure EntityMetadata where
  displayName : Option String
  primaryNameAttribute : Option String
  attributes : List (String × ControlAttributeDefinition)
deriving DecidableEq

/-- The default entry created on first write for an entity type. -/
def emptyEntityMetadata : EntityMetadata :=
  { displayName := none, primaryNameAttribute := none, attributes := [] }

/-- The persisted store blob `{version, entityMetadataMap}`. -/
structure EntityMetadataStore where
  version : Int
  entityMetadataMap : List (String × EntityMetadata)
deriving DecidableEq

/-- In-memory collection state plus its local-storage slot. -/
structure EntityMetadataCollection where
  entityMetadataMap : List (String × EntityMetadata)
  persisted : Option EntityMetadataStore
deriving DecidableEq

/-- `private readonly version = 1`. -/
def collectionVersion : Int := 1

/-- Constructor plus `tryLoadMetadata`: loads the persisted map only when
the stored version matches, otherwise starts cold with an empty map. -/
def mkEntityMetadataCollection (stored : Option EntityMetadataStore) :
    EntityMetadataCollection :=
  { entityMetadataMap :=
      match stored with
      | some store =>
        if store.version = collectionVersion then store.entityMetadataMap
        else []
      | none => []
    persisted := stored }

/-- `setAttribute(entityLogicalName, attribute)` (the source parameter
named `attribute` is `attr` here; `attribute` is a Lean keyword). -/
def setAttribute (c : EntityMetadataCollection) (entityLogicalName : String)
    (attr : ControlAttributeDefinition) : EntityMetadataCollection :=
  let base :=
    match recGet c.entityMetadataMap entityLogicalName with
    | none => emptyEntityMetadata
    | some m => m
  let updated := { base with
    attributes := recordSet base.attributes attr.logicalName attr }
  { c with entityMetadataMap :=
      recordSet c.entityMetadataMap entityLogicalName updated }

/-- `getAttribute(entityLogicalName, attributeLogicalName)`. -/
def getAttribute (c : EntityMetadataCollection) (entityLogicalName : String)
    (attributeLogicalName : String) : Option ControlAttributeDefinition :=
  (recGet c.entityMetadataMap entityLogicalName).bind
    (fun m => recGet m.attributes attributeLogicalName)

/-- `setEntityDisplayName(entityLogicalName, entityDisplayName)`. -/
def setEntityDisplayName (c : EntityMetadataCollection)
    (entityLogicalName entityDisplayName : String) :
    EntityMetadataCollection :=
  let base :=
    match recGet c.entityMetadataMap entityLogicalName with
    | none => emptyEntityMetadata
    | some m => m
  let updated := { base with displayName := some entityDisplayName }
  { c with entityMetadataMap :=
      recordSet c.entityMetadataMap entityLogicalName updated }

/-- `getEntityDisplayName(entityLogicalName)`. -/
def getEntityDisplayName (c : EntityMetadataCollection)
    (entityLogicalName : String) : Option String :=
  (recGet c.entityMetadataMap entityLogicalName).bind (·.displayName)

/-- `setEntityPrimaryNameAttribute(entityLogicalName, name)`. -/
def setEntityPrimaryNameAttribute (c : EntityMetadataCollection)
    (entityLogicalName entityPrimaryNameAttribute : String) :
    EntityMetadataCollection :=
  let base :=
    match recGet c.entityMetadataMap entityLogicalName with
    | none => emptyEntityMetadata
    | some m => m
  let updated :=
    { base with primaryNameAttribute := some entityPrimaryNameAttribute }
  { c with entityMetadataMap :=
      recordSet c.entityMetadataMap entityLogicalName updated }

/-- `getEntityPrimaryNameAttribute(entityLogicalName)`. -/
def getEntityPrimaryNameAttribute (c : EntityMetadataCollection)
    (entityLogicalName : String) : Option String :=
  (recGet c.entityMetadataMap entityLogicalName).bind
    (·.primaryNameAttribute)

/-- `saveData()`: writes the versioned blob to local storage (persistence
failures are caught and logged in the source, never thrown; the success
path is modelled). -/
def saveData (c : EntityMetadataCollection) : EntityMetadataCollection :=
  let store : EntityMetadataStore :=
    { version := collectionVersion
      entityMetadataMap := c.entityMetadataMap }
  { c with persisted := some store }

/-! ## AuditTableData (src: model/auditTableData.ts, auditTableRowData.ts,
dataverseMetadataTypes.ts)

The enrichment orchestration is modelled with explicit state passing: the
metadata collection (with its storage slot), the in-memory record display
name map, and the raw/enriched row lists.  The injected async collaborators
are pure functions into `Except`; `Promise.all` over them is fail-fast
collection in list order. -/

/-- Raw audit table row data. -/
structure AuditTableRowData where
  id : String
  formattedDate : String
  changedBy : String
  event : String
  entityReference : ControlEntityReference
  recordDisplayName : String
  entityDisplayName : String
  rawChangeData : Option (List IRawChangeDataItem)
  rawTargetRecordData : Option (List IRawTargetDataItem)
deriving DecidableEq

/-- The `AuditTableRowData` constructor (including `getRecordDisplayName`,
which appends the primary name when truthy). -/
def mkAuditTableRowData (item : AuditDetailItem) : AuditTableRowData :=
  { entityReference :=
      { id := some item.auditRecord.recordId
        logicalName := item.auditRecord.recordLogicalName }
    id := item.auditRecord.id
    formattedDate := item.auditRecord.createdOnLocalisedString
    changedBy := item.auditRecord.userFullname
    event := item.auditRecord.actionText
    entityDisplayName := item.auditRecord.recordTypeDisplayName
    recordDisplayName :=
      if item.auditRecord.recordPrimaryName ≠ "" then
        item.auditRecord.recordTypeDisplayName ++ ": " ++
          item.auditRecord.recordPrimaryName
      else item.auditRecord.recordTypeDisplayName
    rawChangeData := item.changeData
    rawTargetRecordData := item.targetRecords }

/-- Enriched change data ready for display. -/
structure IEnrichedChangeDataItem where
  changedFieldLogicalName : String
  changedFieldDisplayName : String
  oldValue : ChangeDataItemValue
  newValue : ChangeDataItemValue
deriving DecidableEq

/-- Enriched audit table row data. -/
structure IEnrichedAuditTableRowData where
  entityReference : ControlEntityReference
  id : String
  formattedDate : String
  changedBy : String
  event : String
  entityDisplayName : String
  recordDisplayName : String
  enrichedChangeData : Option (List IEnrichedChangeDataItem)
deriving DecidableEq

/-- `getEnrichedTargetRecordChangeData(changeData, store, default)`:
substitutes the cached primary name of the lookup target, falling back to
the entity display name.  A lookup with an undefined id never resolves. -/
def getEnrichedTargetRecordChangeData (changeData : ChangeDataItemValue)
    (displayNameMap : List (String × String)) (defaultDisplayName : String) :
    ChangeDataItemValue :=
  match changeData.lookup with
  | none => changeData
  | some lk =>
    let primaryNameValue :=
      match lk.id with
      | none => none
      | some i => recGet displayNameMap i
    { text := primaryNameValue.getD defaultDisplayName
      lookup := changeData.lookup }

/-- `enrichWithMetadata(metadataStore, recordPrimaryNameStore)`: field
changes get attribute display names (fallback: the raw key); target-record
changes get entity display names and resolved primary names. -/
def enrichWithMetadata (row : AuditTableRowData)
    (metadataStore : EntityMetadataCollection)
    (displayNameMap : List (String × String)) : IEnrichedAuditTableRowData :=
  let enrichedChangeData : Option (List IEnrichedChangeDataItem) :=
    match row.rawChangeData with
    | some changeItems =>
      some (changeItems.map (fun rc =>
        { changedFieldLogicalName := rc.changedFieldLogicalName
          changedFieldDisplayName :=
            ((getAttribute metadataStore row.entityReference.logicalName
                rc.changedFieldLogicalName).map
              (·.displayName)).getD rc.changedFieldLogicalName
          oldValue := rc.oldValueRaw
          newValue := rc.newValueRaw }))
    | none =>
      match row.rawTargetRecordData with
      | some targets =>
        some (targets.map (fun tr =>
          let entityDisplayName :=
            (getEntityDisplayName metadataStore
              tr.changedEntityLogicalName).getD tr.changedEntityLogicalName
          { changedFieldLogicalName := tr.changedEntityLogicalName
            changedFieldDisplayName := entityDisplayName
            oldValue := getEnrichedTargetRecordChangeData tr.oldValueRaw
              displayNameMap entityDisplayName
            newValue := getEnrichedTargetRecordChangeData tr.newValueRaw
              displayNameMap entityDisplayName }))
      | none => none
  { entityReference := row.entityReference
    id := row.id
    formattedDate := row.formattedDate
    changedBy := row.changedBy
    event := row.event
    entityDisplayName := row.entityDisplayName
    recordDisplayName := row.recordDisplayName
    enrichedChangeData := enrichedChangeData }

/-- `ServiceFetchEntityMetadataRequest` (the attribute set in insertion
order). -/
structure ServiceFetchEntityMetadataRequest where
  entityLogicalName : String
  attributeLogicalNames : List String
deriving DecidableEq

/-- `ServiceFetchEntityMetadataResponse`. -/
structure ServiceFetchEntityMetadataResponse where
  LogicalName : String
  DisplayName : String
  PrimaryNameAttribute : String
  attributes : List ControlAttributeDefinition
deriving DecidableEq

/-- `ServiceFetchMultipleEntitiesRequest`. -/
structure ServiceFetchMultipleEntitiesRequest where
  entityLogicalName : String
  select : List String
  ids : List String
deriving DecidableEq

/-- `ServiceFetchMultipleEntitiesResponse`. -/
structure ServiceFetchMultipleEntitiesResponse where
  entities : List (List (String × String))
  entityLogicalName : String
deriving DecidableEq

/-- `RequiredMetadata` (one mutable object on the JS heap). -/
structure RequiredMetadata where
  attributesToFetchDataFor : List String
  doFetchEntityLevelMetadata : Bool
deriving DecidableEq

/-- The `entitiesToRequiredMetadataMap` with JS object aliasing made
explicit: `entries` binds entity names (in insertion order) to cell indices
into `cells`; two names bound to the same index share one mutable
`RequiredMetadata` object, exactly as two JS map entries can reference the
same object. -/
structure EntitiesToRequiredMetadataMap where
  entries : List (String × Nat)
  cells : List RequiredMetadata
deriving DecidableEq

/-- Dereference a cell index. -/
def getCell (cells : List RequiredMetadata) (ref : Nat) : RequiredMetadata :=
  (cells.get? ref).getD
    { attributesToFetchDataFor := [], doFetchEntityLevelMetadata := false }

/-- Mutate the object behind a cell index. -/
def updateCell (cells : List RequiredMetadata) (ref : Nat)
    (f : RequiredMetadata → RequiredMetadata) : List RequiredMetadata :=
  match cells.get? ref with
  | none => cells
  | some c => cells.set ref (f c)

/-- `Set.add` on the attribute set of the cell bound to `ename`. -/
def mapAddAttributeKey (m : EntitiesToRequiredMetadataMap) (ename key : String) :
    EntitiesToRequiredMetadataMap :=
  match recGet m.entries ename with
  | none => m
  | some ref =>
    { m with cells := updateCell m.cells ref (fun cell =>
        if key ∈ cell.attributesToFetchDataFor then cell
        else { cell with attributesToFetchDataFor :=
            cell.attributesToFetchDataFor ++ [key] }) }

/-- `doFetchEntityLevelMetadata = true` on the cell bound to `ename`. -/
def mapSetDoFetch (m : EntitiesToRequiredMetadataMap) (ename : String) :
    EntitiesToRequiredMetadataMap :=
  match recGet m.entries ename with
  | none => m
  | some ref =>
    let cells' := updateCell m.cells ref
      (fun cell => { cell with doFetchEntityLevelMetadata := true })
    { m with cells := cells' }

/-- The attribute-gap loop of `identifyAttributesToEnrich`. -/
def addMissingAttributes (store : EntityMetadataCollection) (ename : String) :
    List IRawChangeDataItem → EntitiesToRequiredMetadataMap →
    EntitiesToRequiredMetadataMap
  | [], m => m
  | change :: rest, m =>
    let m' :=
      if (getAttribute store ename change.changedFieldLogicalName).isSome
      then m
      else mapAddAttributeKey m ename change.changedFieldLogicalName
    addMissingAttributes store ename rest m'

/-- `identifyAttributesToEnrich(row, map)`: allocates one fresh
`RequiredMetadata` per call and binds it only when the row's entity is not
yet in the map; then records the attribute keys missing from the metadata
store. -/
def identifyAttributesToEnrich (store : EntityMetadataCollection)
    (row : AuditTableRowData) (m : EntitiesToRequiredMetadataMap) :
    EntitiesToRequiredMetadataMap :=
  match row.rawChangeData with
  | none => m
  | some [] => m
  | some changes =>
    let m1 :=
      if (recGet m.entries row.entityReference.logicalName).isSome then m
      else
        { entries :=
            m.entries ++ [(row.entityReference.logicalName, m.cells.length)],
          cells := m.cells ++
            [{ attributesToFetchDataFor := [],
               doFetchEntityLevelMetadata := false }] }
    addMissingAttributes store row.entityReference.logicalName changes m1

/-- The target-record loop of `identifyEntityLevelDataToEnrich`: every
entity name missing from the map gets bound to the SAME shared cell (the
single `emptyRequiredMetadataValue` object created before the loop in the
source). -/
def entityLevelLoop (store : EntityMetadataCollection) (sharedRef : Nat) :
    List IRawTargetDataItem → EntitiesToRequiredMetadataMap →
    EntitiesToRequiredMetadataMap
  | [], m => m
  | target :: rest, m =>
    let m1 :=
      if (recGet m.entries target.changedEntityLogicalName).isSome then m
      else { m with entries := m.entries ++
          [(target.changedEntityLogicalName, sharedRef)] }
    let m2 :=
      if (getEntityDisplayName store target.changedEntityLogicalName).isSome
          ∧ (getEntityPrimaryNameAttribute store
              target.changedEntityLogicalName).isSome then m1
      else mapSetDoFetch m1 target.changedEntityLogicalName
    entityLevelLoop store sharedRef rest m2

/-- `identifyEntityLevelDataToEnrich(row, map)`. -/
def identifyEntityLevelDataToEnrich (store : EntityMetadataCollection)
    (row : AuditTableRowData) (m : EntitiesToRequiredMetadataMap) :
    EntitiesToRequiredMetadataMap :=
  match row.rawTargetRecordData with
  | none => m
  | some targets =>
    let sharedRef := m.cells.length
    let m1 := { m with cells := m.cells ++
      [{ attributesToFetchDataFor := [],
         doFetchEntityLevelMetadata := false }] }
    entityLevelLoop store sharedRef targets m1

/-- The row scan of `buildEntityMetadataRequests`. -/
def gatherRequiredMetadata (store : EntityMetadataCollection) :
    List AuditTableRowData → EntitiesToRequiredMetadataMap →
    EntitiesToRequiredMetadataMap
  | [], m => m
  | row :: rest, m =>
    gatherRequiredMetadata store rest
      (identifyEntityLevelDataToEnrich store row
        (identifyAttributesToEnrich store row m))

/-- `buildEntityMetadataRequests(rowData)`: one request per map key whose
required metadata has a non-empty attribute set or the entity-level flag. -/
def buildEntityMetadataRequests (store : EntityMetadataCollection)
    (rowData : List AuditTableRowData) :
    List ServiceFetchEntityMetadataRequest :=
  let m := gatherRequiredMetadata store rowData { entries := [], cells := [] }
  m.entries.filterMap (fun kv =>
    let requiredMetadata := getCell m.cells kv.2
    if requiredMetadata.attributesToFetchDataFor.length = 0 ∧
        requiredMetadata.doFetchEntityLevelMetadata = false then none
    else
      some
        { entityLogicalName := kv.1,
          attributeLogicalNames :=
            requiredMetadata.attributesToFetchDataFor })

/-- A `ControlOperationalError` carrying an optional original cause of
type `ε` (the rejection value of an injected collaborator). -/
structure ControlOperationalError (ε : Type) where
  messageForUsers : String
  originalError : Option ε

/-- `Promise.all`: fail-fast with the first rejection (list order in this
sequential model). -/
def collectResults {ε α : Type} : List (Except ε α) → Except ε (List α)
  | [] => .ok []
  | r :: rest =>
    match r with
    | .error e => .error e
    | .ok a => (collectResults rest).map (a :: ·)

/-- `executeFetchMetadataRequests(requests)`: dispatches all requests and
wraps any rejection once. -/
def executeFetchMetadataRequests {ε : Type}
    (fetchEntityMetadata : ServiceFetchEntityMetadataRequest →
      Except ε ServiceFetchEntityMetadataResponse)
    (requests : List ServiceFetchEntityMetadataRequest) :
    Except (ControlOperationalError ε)
      (List ServiceFetchEntityMetadataResponse) :=
  match collectResults (requests.map fetchEntityMetadata) with
  | .error e =>
    .error { messageForUsers := "Failed to fetch entity metadata"
             originalError := some e }
  | .ok responses => .ok responses

/-- `updateMetadataStore(responses)`: display name, primary name attribute
and attribute definitions per response, then persist. -/
def updateMetadataStore (store : EntityMetadataCollection)
    (responses : List ServiceFetchEntityMetadataResponse) :
    EntityMetadataCollection :=
  saveData (responses.foldl
    (fun st resp =>
      (resp.attributes.foldl (fun s a => setAttribute s resp.LogicalName a)
        (setEntityPrimaryNameAttribute
          (setEntityDisplayName st resp.LogicalName resp.DisplayName)
          resp.LogicalName resp.PrimaryNameAttribute)))
    store)

/-- Per-entity accumulation of `buildEntityPrimaryNameValueRequests`
(`{ids, primaryNameAttribute}` keyed by entity name, insertion order). -/
def gatherPrimaryNameTargets (store : EntityMetadataCollection)
    (displayNameMap : List (String × String)) :
    List IRawTargetDataItem → List (String × (List String × String)) →
    List (String × (List String × String))
  | [], acc => acc
  | target :: rest, acc =>
    if jsTruthyStr (recGet displayNameMap target.changedEntityId) then
      gatherPrimaryNameTargets store displayNameMap rest acc
    else
      match getEntityPrimaryNameAttribute store
          target.changedEntityLogicalName with
      | none => gatherPrimaryNameTargets store displayNameMap rest acc
      | some primaryNameAttribute =>
        if primaryNameAttribute = "" then
          gatherPrimaryNameTargets store displayNameMap rest acc
        else
          let acc1 :=
            if (recGet acc target.changedEntityLogicalName).isSome then acc
            else acc ++ [(target.changedEntityLogicalName,
              ([], primaryNameAttribute))]
          let acc2 :=
            match recGet acc1 target.changedEntityLogicalName with
            | none => acc1
            | some (ids, pna) =>
              recordSet acc1 target.changedEntityLogicalName
                (ids ++ [target.changedEntityId], pna)
          gatherPrimaryNameTargets store displayNameMap rest acc2

/-- The row scan of `buildEntityPrimaryNameValueRequests`. -/
def gatherPrimaryNameRows (store : EntityMetadataCollection)
    (displayNameMap : List (String × String)) :
    List AuditTableRowData → List (String × (List String × String)) →
    List (String × (List String × String))
  | [], acc => acc
  | row :: rest, acc =>
    match row.rawTargetRecordData with
    | none => gatherPrimaryNameRows store displayNameMap rest acc
    | some targets =>
      gatherPrimaryNameRows store displayNameMap rest
        (gatherPrimaryNameTargets store displayNameMap targets acc)

/-- `buildEntityPrimaryNameValueRequests(rowData)`. -/
def buildEntityPrimaryNameValueRequests (store : EntityMetadataCollection)
    (displayNameMap : List (String × String))
    (rowData : List AuditTableRowData) :
    List ServiceFetchMultipleEntitiesRequest :=
  (gatherPrimaryNameRows store displayNameMap rowData []).filterMap
    (fun kv =>
      if kv.2.1.length = 0 then none
      else
        some
          { entityLogicalName := kv.1, select := [kv.2.2],
            ids := kv.2.1 })

/-- `executeFetchPrimaryNameValuesRequests(requests)`. -/
def executeFetchPrimaryNameValuesRequests {ε : Type}
    (fetchMultipleRecords : ServiceFetchMultipleEntitiesRequest →
      Except ε ServiceFetchMultipleEntitiesResponse)
    (requests : List ServiceFetchMultipleEntitiesRequest) :
    Except (ControlOperationalError ε)
      (List ServiceFetchMultipleEntitiesResponse) :=
  match collectResults (requests.map fetchMultipleRecords) with
  | .error e =>
    .error { messageForUsers := "Failed to fetch record primary name values"
             originalError := some e }
  | .ok responses => .ok responses

/-- `tryGetRecordValue(record, key)` (src: utils/helpers.ts): throws a
`ControlOperationalError` for an absent attribute. -/
def tryGetRecordValue {ε : Type} (record : List (String × String))
    (key : String) : Except (ControlOperationalError ε) String :=
  match recGet record key with
  | none =>
    .error
      { messageForUsers :=
          "Attribute \x27" ++ key ++ "\x27 is null or undefined",
        originalError := none }
  | some v => .ok v

/-- The per-record loop of `updateRecordDisplayNameStore`: each fetched
entity's primary name is cached under its id; a missing attribute throws,
leaving the partially updated map. -/
def updateDisplayNamesFromEntities {ε : Type} (entityLogicalName : String)
    (primaryNameAttribute : String) :
    List (List (String × String)) → List (String × String) →
    Except (ControlOperationalError ε) Unit × List (String × String)
  | [], m => (.ok (), m)
  | entity :: rest, m =>
    match tryGetRecordValue (ε := ε) entity primaryNameAttribute with
    | .error e => (.error e, m)
    | .ok primaryNameValue =>
      match tryGetRecordValue (ε := ε) entity (entityLogicalName ++ "id") with
      | .error e => (.error e, m)
      | .ok id =>
        updateDisplayNamesFromEntities entityLogicalName
          primaryNameAttribute rest (recordSet m id primaryNameValue)

/-- `updateRecordDisplayNameStore(responses)`. -/
def updateRecordDisplayNameStore {ε : Type}
    (store : EntityMetadataCollection) :
    List ServiceFetchMultipleEntitiesResponse → List (String × String) →
    Except (ControlOperationalError ε) Unit × List (String × String)
  | [], m => (.ok (), m)
  | resp :: rest, m =>
    match getEntityPrimaryNameAttribute store resp.entityLogicalName with
    | none => updateRecordDisplayNameStore store rest m
    | some primaryNameAttribute =>
      if primaryNameAttribute = "" then
        updateRecordDisplayNameStore store rest m
      else
        match updateDisplayNamesFromEntities (ε := ε) resp.entityLogicalName
            primaryNameAttribute resp.entities m with
        | (.error e, m') => (.error e, m')
        | (.ok (), m') => updateRecordDisplayNameStore store rest m'

/-- The `AuditTableData` state: the metadata collection (with its storage
slot), the in-memory display name map, the raw rows built by the
constructor, and the enriched rows. -/
structure AuditTableDataState where
  entityMetadataStore : EntityMetadataCollection
  recordDisplayNameStore : List (String × String)
  rawRowData : List AuditTableRowData
  rowData : List IEnrichedAuditTableRowData
deriving DecidableEq

/-- `buildEnrichedRowData()`. -/
def buildEnrichedRowData (st : AuditTableDataState) : AuditTableDataState :=
  let rows := st.rawRowData.map
    (fun r => enrichWithMetadata r st.entityMetadataStore
      st.recordDisplayNameStore)
  { st with rowData := rows }

/-- `enrichRowData()`: the strictly ordered enrichment pipeline.  Returns
the outcome together with the state as it stands when the method returns or
throws (JS state mutations before a throw survive it). -/
def enrichRowData {ε : Type}
    (fetchEntityMetadata : ServiceFetchEntityMetadataRequest →
      Except ε ServiceFetchEntityMetadataResponse)
    (fetchMultipleRecords : ServiceFetchMultipleEntitiesRequest →
      Except ε ServiceFetchMultipleEntitiesResponse)
    (st : AuditTableDataState) :
    Except (ControlOperationalError ε) Unit × AuditTableDataState :=
  let getEntityMetadataRequests :=
    buildEntityMetadataRequests st.entityMetadataStore st.rawRowData
  match executeFetchMetadataRequests fetchEntityMetadata
      getEntityMetadataRequests with
  | .error e => (.error e, st)
  | .ok getEntityMetadataResponses =>
    let store1 := updateMetadataStore st.entityMetadataStore
      getEntityMetadataResponses
    let st1 := { st with entityMetadataStore := store1 }
    let getRecordPrimaryNameRequests :=
      buildEntityPrimaryNameValueRequests st1.entityMetadataStore
        st1.recordDisplayNameStore st1.rawRowData
    match executeFetchPrimaryNameValuesRequests fetchMultipleRecords
        getRecordPrimaryNameRequests with
    | .error e => (.error e, st1)
    | .ok getRecordPrimaryNameResponses =>
      match updateRecordDisplayNameStore (ε := ε) st1.entityMetadataStore
          getRecordPrimaryNameResponses st1.recordDisplayNameStore with
      | (.error e, m') =>
        (.error e, { st1 with recordDisplayNameStore := m' })
      | (.ok (), m') =>
        (.ok (), buildEnrichedRowData
          { st1 with recordDisplayNameStore := m' })

/-! ## DataverseService.parseAuditDetailItems (src: src/unnamed/part_006) -/

/-- The `unsupportedActions` record. -/
def unsupportedActions : List (Int × String) :=
  [(105, "Entity Audit Started"), (106, "Attribute Audit Started"),
   (107, "Audit Enabled"), (108, "Entity Audit Stopped"),
   (109, "Attribute Audit Stopped"), (110, "Audit Disabled"),
   (111, "Audit Log Deletion")]

/-- `this.unsupportedActions[action]` as an integer-keyed record read. -/
def lookupUnsupportedAction : List (Int × String) → Int → Option String
  | [], _ => none
  | (k, v) :: rest, a => if k = a then some v else lookupUnsupportedAction rest a

/-- Truthiness of `this.unsupportedActions[action]`. -/
def isUnsupportedAction (action : Int) : Bool :=
  jsTruthyStr (lookupUnsupportedAction unsupportedActions action)

/-- `AuditDetailCollection` of a change-history response. -/
structure AuditDetailCollection where
  AuditDetails : List WebApiRecordChangeHistoryAuditDetail
  MoreRecords : Bool
  PagingCookie : String
  TotalRecordCount : Int
deriving DecidableEq

/-- `RetrieveRecordChangeHistoryResponse`. -/
structure RetrieveRecordChangeHistoryResponse where
  AuditDetailCollection : AuditDetailCollection
deriving DecidableEq

/-- The inner loop of `parseAuditDetailItems`: builds one entity's audit
detail list, skipping unsupported actions; threads the `Date` allocation
counter through the constructions. -/
def buildEntityAuditDetails (dateParse : String → Int) :
    Nat → List WebApiRecordChangeHistoryAuditDetail →
    Except Unit (List AuditDetailItem × Nat)
  | oid, [] => .ok ([], oid)
  | oid, d :: rest =>
    if isUnsupportedAction d.AuditRecord.action then
      buildEntityAuditDetails dateParse oid rest
    else
      match mkAuditDetailItem dateParse oid d with
      | .error e => .error e
      | .ok item =>
        match buildEntityAuditDetails dateParse (oid + 1) rest with
        | .error e => .error e
        | .ok (items, oid') => .ok (item :: items, oid')

/-- The outer loop of `parseAuditDetailItems`: one list per change-history
response. -/
def buildAuditDetailCollections (dateParse : String → Int) :
    Nat → List RetrieveRecordChangeHistoryResponse →
    Except Unit (List (List AuditDetailItem))
  | _, [] => .ok []
  | oid, r :: rest =>
    match buildEntityAuditDetails dateParse oid
        r.AuditDetailCollection.AuditDetails with
    | .error e => .error e
    | .ok (items, oid') =>
      (buildAuditDetailCollections dateParse oid' rest).map (items :: ·)

/-- `parseAuditDetailItems(entityChangeHistoryResponses)`: per-entity lists
merged with `AuditDetailItem.comparer` (this is the value
`fetchAuditData` returns as `auditDetailItems`). -/
def parseAuditDetailItems (dateParse : String → Int)
    (entityChangeHistoryResponses : List RetrieveRecordChangeHistoryResponse) :
    Except Unit (List (Option AuditDetailItem)) :=
  match buildAuditDetailCollections dateParse 0
      entityChangeHistoryResponses with
  | .error e => .error e
  | .ok colls => .ok (mergeSortedArrays colls AuditDetailItem.comparer)

/-! ## Concrete inputs for the audit claims -/

/-- An audit record with the given id, action and `createdon` string. -/
def mkRawAuditRecord (auditid : String) (action : Int) (createdon : String) :
    WebApiAuditRecord :=
  { auditid := auditid, action := action, actionFormatted := "Action",
    createdon := createdon, createdonFormatted := createdon,
    _objectid_value := "rec-1", objecttypecode := "account",
    objecttypecodeFormatted := "Account", objectidFormatted := "Acme",
    _userid_value := "user-1", useridFormatted := "A User" }

/-- An audit detail item value with the given date identity and instant
(two separately constructed `Date`s share `time` but never `oid`). -/
def mkTieItem (auditid : String) (dateOid : Nat) (time : Int) :
    AuditDetailItem :=
  { auditRecord :=
      { id := auditid, userFullname := "A User", userId := "user-1",
        actionValue := 1, actionText := "Update", recordId := "rec-1",
        recordLogicalName := "account", recordTypeDisplayName := "Account",
        recordPrimaryName := "Acme",
        createdOn := { oid := dateOid, time := time },
        createdOnLocalisedString := "t" },
    changeData := none, targetRecords := none }

/-- First stream's item: instant 100, date object 0. -/
def tieItemA : AuditDetailItem := mkTieItem "A" 0 100

/-- Second stream's item: the same instant 100, distinct date object 1. -/
def tieItemB : AuditDetailItem := mkTieItem "B" 1 100

/-- A target record carrying a qualified type and an id-suffixed key. -/
def associateTargetRecord : List (String × String) :=
  [(odataTypeKey, typeNamespacePrefix ++ "account"),
   ("accountid", "guid-1")]

/-- An associate (action 33) raw detail that also carries both (empty, hence
truthy) old/new value maps. -/
def bothDefinedInput : WebApiRecordChangeHistoryAuditDetail :=
  { AuditRecord := mkRawAuditRecord "a1" 33 "2024-01-01",
    OldValue := some [], NewValue := some [],
    TargetRecords := some [associateTargetRecord] }

/-- The target-record change an associate event produces for type `t` and
id `idv`: new side populated, old side the empty placeholder. -/
def mkAssociateTargetChange (t idv : String) : IRawTargetDataItem :=
  { changedEntityLogicalName := t, changedEntityId := idv,
    oldValueRaw := { text := "-", lookup := none },
    newValueRaw :=
      { text := t, lookup := some { id := some idv, logicalName := t } } }

/-- The target-record change produced from `associateTargetRecord` under
action 33. -/
def associateTargetChange : IRawTargetDataItem :=
  mkAssociateTargetChange "account" "guid-1"

/-- An associate (action 33) raw detail with one target and no value maps
(scenario D). -/
def associateOnlyInput : WebApiRecordChangeHistoryAuditDetail :=
  { AuditRecord := mkRawAuditRecord "a2" 33 "2024-01-02",
    OldValue := none, NewValue := none,
    TargetRecords := some [associateTargetRecord] }

/-- An attribute definition used by the cache round-trip witness. -/
def c8Attr : ControlAttributeDefinition :=
  { logicalName := "name", displayName := "Account Name" }

/-- A persisted blob whose version (2) differs from the collection's
version (1) and which holds a previously-cached key. -/
def c8BadVersionStore : EntityMetadataStore :=
  { version := 2,
    entityMetadataMap :=
      [("account",
        { displayName := some "Account", primaryNameAttribute := some "name",
          attributes := [("name", c8Attr)] })] }

/-- A store already holding entity-level metadata for `"a"` and nothing
for `"b"`. -/
def c9Store : EntityMetadataCollection :=
  { entityMetadataMap :=
      [("a",
        { displayName := some "A", primaryNameAttribute := some "aname",
          attributes := [] })],
    persisted := none }

/-- A target change naming entity type `e` with record id `i`. -/
def mkTargetFor (e i : String) : IRawTargetDataItem :=
  { changedEntityLogicalName := e, changedEntityId := i,
    oldValueRaw := { text := "-", lookup := none },
    newValueRaw := { text := e, lookup := some { id := some i, logicalName := e } } }

/-- A relationship row whose targets name first `"a"` (fully cached) and
then `"b"` (not cached). -/
def c9Row : AuditTableRowData :=
  { id := "a3", formattedDate := "t", changedBy := "A User",
    event := "Associate",
    entityReference := { id := some "rec-1", logicalName := "account" },
    recordDisplayName := "Account: Acme", entityDisplayName := "Account",
    rawChangeData := none,
    rawTargetRecordData := some [mkTargetFor "a" "id-a", mkTargetFor "b" "id-b"] }

/-- A field-change row over an attribute missing from the empty cache. -/
def c5Row : AuditTableRowData :=
  { id := "a4", formattedDate := "t", changedBy := "A User",
    event := "Update",
    entityReference := { id := some "rec-1", logicalName := "account" },
    recordDisplayName := "Account: Acme", entityDisplayName := "Account",
    rawChangeData := some
      [{ changedFieldLogicalName := "name",
         oldValueRaw := { text := "x", lookup := none },
         newValueRaw := { text := "y", lookup := none } }],
    rawTargetRecordData := none }

/-- A table-data state with an empty metadata cache and one field-change
row, so the metadata phase issues exactly one request. -/
def c5State : AuditTableDataState :=
  { entityMetadataStore := mkEntityMetadataCollection none,
    recordDisplayNameStore := [], rawRowData := [c5Row], rowData := [] }

/-- An integer comparer of the shape of `AuditDetailItem.comparer`
(undefined sorts last, descending by value) for the merge witness. -/
def intOptionComparer : Option Int → Option Int → Int
  | none, none => 0
  | _, none => 1
  | none, _ => -1
  | some a, some b => if a = b then 0 else if b < a then 1 else -1

/-- A supported (action 1) raw detail. -/
def c10SupportedDetail : WebApiRecordChangeHistoryAuditDetail :=
  { AuditRecord := mkRawAuditRecord "keep-1" 1 "2024-01-03",
    OldValue := none, NewValue := none, TargetRecords := none }

/-- An unsupported (action 105, Entity Audit Started) raw detail. -/
def c10UnsupportedDetail : WebApiRecordChangeHistoryAuditDetail :=
  { AuditRecord := mkRawAuditRecord "drop-1" 105 "2024-01-04",
    OldValue := none, NewValue := none, TargetRecords := none }

/-- One change-history response mixing an unsupported and a supported
entry. -/
def c10Responses : List RetrieveRecordChangeHistoryResponse :=
  [{ AuditDetailCollection :=
      { AuditDetails := [c10UnsupportedDetail, c10SupportedDetail],
        MoreRecords := false, PagingCookie := "", TotalRecordCount := 2 } }]

/-! ## Theorems: query parser depth and mutual-exclusivity behaviour -/

theorem expansionDepth_pos (l : ExpandNodeList) :
    1 ≤ ExpandNodeList.expansionDepth l := by
  cases l with
  | nil => simp [ExpandNodeList.expansionDepth]
  | cons n rest =>
    simp only [ExpandNodeList.expansionDepth]
    omega

theorem validateExpandPropertyFuel_none (fuel : Nat) (flag : Bool)
    (depth : Nat) :
    validateExpandPropertyFuel fuel flag none depth = (.ok none, flag) := by
  cases fuel <;> simp [validateExpandPropertyFuel]

/-- Walking a structurally valid expand list without many-to-many nodes at
depth `d ≤ 4` yields the depth error exactly when some item nests past
depth 4, given that each single item validates that way. -/
theorem walkExpandList_depth
    (h : Bool → JsonValue → Except Unit (Option String) × Bool) (d : Nat)
    (hd : d ≤ 4)
    (hspec : ∀ n : ExpandNode, ExpandNode.valid n = true →
      ExpandNode.noManyToMany n = true →
      h false n.toJson = (.ok (if 6 ≤ d + 1 + n.subDepth
        then some depthExceededMessage else none), false)) :
    ∀ l : ExpandNodeList, ExpandNodeList.allValid l = true →
      ExpandNodeList.noManyToMany l = true →
      walkExpandList h false (ExpandNodeList.toJson l)
        = (.ok (if 6 ≤ d + ExpandNodeList.expansionDepth l
            then some depthExceededMessage else none), false)
  | .nil, _, _ => by
    have hc : ¬(6 ≤ d + ExpandNodeList.expansionDepth .nil) := by
      simp only [ExpandNodeList.expansionDepth]
      omega
    simp [ExpandNodeList.toJson, walkExpandList, hc]
  | .cons n rest, hv, hm => by
    simp only [ExpandNodeList.allValid, Bool.and_eq_true] at hv
    simp only [ExpandNodeList.noManyToMany, Bool.and_eq_true] at hm
    simp only [ExpandNodeList.toJson, walkExpandList]
    rw [hspec n hv.1 hm.1]
    by_cases hc : 6 ≤ d + 1 + ExpandNode.subDepth n
    · rw [if_pos hc]
      have : 6 ≤ d + ExpandNodeList.expansionDepth (.cons n rest) := by
        simp only [ExpandNodeList.expansionDepth]
        omega
      rw [if_pos this]
    · rw [if_neg hc]
      show walkExpandList h false (ExpandNodeList.toJson rest) = _
      rw [walkExpandList_depth h d hd hspec rest hv.2 hm.2]
      by_cases hr : 6 ≤ d + ExpandNodeList.expansionDepth rest
      · rw [if_pos hr,
          if_pos (by simp only [ExpandNodeList.expansionDepth]; omega)]
      · rw [if_neg hr,
          if_neg (by simp only [ExpandNodeList.expansionDepth]; omega)]

/-- A structurally valid expand array with no many-to-many nodes, validated
at depth `d` with the flag down and enough fuel, fails with the
depth-exceeded message exactly when its nesting passes depth 4, and keeps
the flag down. -/
theorem validateExpandPropertyFuel_depth :
    ∀ (fuel : Nat) (l : ExpandNodeList) (d : Nat),
      ExpandChildren.valid (.present l) = true →
      ExpandNodeList.noManyToMany l = true →
      6 ≤ fuel + d → 1 ≤ fuel →
      validateExpandPropertyFuel fuel false
          (some (.arr (ExpandNodeList.toJson l))) d
        = (.ok (if 6 ≤ d + ExpandNodeList.expansionDepth l
            then some depthExceededMessage else none), false) := by
  intro fuel
  induction fuel with
  | zero => intro l d _ _ _ h1; omega
  | succ g ih =>
    intro l d hv hm h6 _
    obtain ⟨n, rest, rfl⟩ : ∃ n rest, l = .cons n rest := by
      cases l with
      | nil => simp [ExpandChildren.valid] at hv
      | cons n rest => exact ⟨n, rest, rfl⟩
    have hv' : ExpandNodeList.allValid (.cons n rest) = true := by
      simp only [ExpandChildren.valid] at hv
      simp only [ExpandNodeList.allValid]
      exact hv
    simp only [validateExpandPropertyFuel]
    rw [if_neg (by simp [ExpandNodeList.toJson])]
    rw [if_neg (by simp)]
    by_cases hd : maximumExpandDepth < d
    · rw [if_pos hd]
      have h1 := expansionDepth_pos (.cons n rest)
      simp only [maximumExpandDepth] at hd
      rw [if_pos (by omega)]
    · rw [if_neg hd]
      simp only [maximumExpandDepth, Nat.not_lt] at hd
      refine walkExpandList_depth _ d hd ?_ _ hv' hm
      intro m hvn hmn
      obtain ⟨p, r, mm, c⟩ := m
      simp only [ExpandNode.valid, Bool.and_eq_true] at hvn
      simp only [ExpandNode.noManyToMany, Bool.and_eq_true] at hmn
      have hmm : mm = false := by
        cases mm
        · rfl
        · simp at hmn
      subst hmm
      simp only [validateExpandItemGo]
      have e1 : getField (ExpandNode.toJson (.mk p r false c))
          "propertyName" = some (.str p) := rfl
      have e2 : getField (ExpandNode.toJson (.mk p r false c))
          "relatedEntityLogicalName" = some (.str r) := rfl
      have e3 : getField (ExpandNode.toJson (.mk p r false c))
          "isManyToMany" = some (.bool false) := rfl
      rw [e1, e2, e3]
      rw [if_neg (by simp [isNullJson, ExpandNode.toJson])]
      rw [if_neg (by simp [isValidString, hvn.1.1])]
      rw [if_neg (by simp [isValidString, hvn.1.2])]
      rw [if_neg (by simp [isValidBool])]
      simp only [jsTruthyOpt, jsTruthy, if_false, Bool.false_eq_true]
      cases c with
      | absent =>
        have e4 : getField (ExpandNode.toJson (.mk p r false .absent))
            "expand" = none := rfl
        rw [e4, validateExpandPropertyFuel_none]
        have : ¬(6 ≤ d + 1 + ExpandNode.subDepth (.mk p r false .absent)) := by
          simp only [ExpandNode.subDepth, ExpandChildren.depth]
          omega
        rw [if_neg this]
      | present ys =>
        have e4 : getField (ExpandNode.toJson (.mk p r false (.present ys)))
            "expand" = some (.arr (ExpandNodeList.toJson ys)) := rfl
        rw [e4]
        have hys : ExpandChildren.valid (.present ys) = true := hvn.2
        have hysm : ExpandNodeList.noManyToMany ys = true := hmn.2
        rw [ih ys (d + 1) hys hysm (by omega) (by omega)]
        have hsub : ExpandNode.subDepth (.mk p r false (.present ys))
            = ExpandNodeList.expansionDepth ys := rfl
        rw [hsub]

/-- C1: the claim states that any descriptor combining an
`isManyToMany:true` node with a node nested beyond depth 1 fails with the
mutual-exclusivity error regardless of node order.  The code is
order-dependent: `nestedThenManyToManyInput` contains a depth-2 nested node
(first) and a many-to-many node (second), yet `parse` succeeds, because the
static `_includesManyToMany` flag is still unset when the nested expand
array is entered.  This evaluates the model at that failing input. -/
theorem c1_parse_accepts_nested_before_manyToMany :
    parseConfig nestedThenManyToManyInput
      = .success nestedThenManyToManyInput := rfl

/-- C6 counterexample: a descriptor whose expansion nesting reaches depth 5
(`manyToManyThenDeepList` has expansion depth 5) but whose first root node
is `isManyToMany:true` fails with the mutual-exclusivity message, not the
depth-exceeded message, because the N:N check precedes the depth check. -/
theorem c6_counterexample_depth5_nn_message :
    ExpandNodeList.expansionDepth manyToManyThenDeepList = 5 ∧
    parseConfig manyToManyThenDeepInput
      = .opError (baseErrorMessage ++ " " ++ manyToManyErrorMessage) ∧
    manyToManyErrorMessage ≠ depthExceededMessage :=
  ⟨rfl, rfl, by decide⟩

/-- C6 (amended): for every descriptor with a non-blank primary entity name
and a structurally valid root expand array containing no
`isManyToMany:true` node, whose expansion nesting reaches depth 5, `parse`
throws a `ControlOperationalError` whose message reports that the maximum
expand depth (4) was exceeded. -/
theorem c6_parse_depth5_fails_with_depth_error
    (primary : String) (hp : isBlankString primary = false)
    (l : ExpandNodeList) (hv : ExpandChildren.valid (.present l) = true)
    (hm : ExpandNodeList.noManyToMany l = true)
    (hd : 5 ≤ ExpandNodeList.expansionDepth l) :
    parseConfig (mkDescriptor primary l)
      = .opError (baseErrorMessage ++ " " ++ depthExceededMessage) := by
  have e0 : jsTruthy (mkDescriptor primary l) = true := rfl
  have e1 : typeofIsObject (mkDescriptor primary l) = true := rfl
  have e2 : getField (mkDescriptor primary l) "primaryEntityLogicalName"
      = some (.str primary) := rfl
  have e3 : getField (mkDescriptor primary l) "expand"
      = some (.arr (ExpandNodeList.toJson l)) := rfl
  simp only [parseConfig, e0, e1, e2, e3]
  rw [if_neg (by simp)]
  rw [if_neg (by simp [isValidString, hp])]
  have e4 : validateExpandProperty false
      (some (.arr (ExpandNodeList.toJson l))) 1
      = validateExpandPropertyFuel 5 false
        (some (.arr (ExpandNodeList.toJson l))) 1 := rfl
  rw [e4, validateExpandPropertyFuel_depth 5 l 1 hv hm (by omega) (by omega)]
  rw [if_pos (by omega)]

/-- Witness for `c6_parse_depth5_fails_with_depth_error` at the concrete
five-level chain `chain5` under primary entity `"account"`. -/
theorem c6_parse_depth5_fails_with_depth_error_witness :
    isBlankString "account" = false ∧
    ExpandChildren.valid (.present chain5) = true ∧
    ExpandNodeList.noManyToMany chain5 = true ∧
    5 ≤ ExpandNodeList.expansionDepth chain5 ∧
    parseConfig (mkDescriptor "account" chain5)
      = .opError (baseErrorMessage ++ " " ++ depthExceededMessage) :=
  ⟨by decide, by decide, by decide, by decide,
    c6_parse_depth5_fails_with_depth_error "account" (by decide) chain5
      (by decide) (by decide) (by decide)⟩

/-! ## Theorems: metadata cache (C8) -/

theorem recGet_recordSet_same {α : Type} (m : List (String × α))
    (k : String) (v : α) : recGet (recordSet m k v) k = some v := by
  induction m with
  | nil => simp [recordSet, recGet]
  | cons hd tl ih =>
    obtain ⟨k', v'⟩ := hd
    by_cases h : k' = k
    · simp [recordSet, recGet, h]
    · simp [recordSet, recGet, h, ih]

/-- C8: setting an attribute and reading it back under the same entity name
and the attribute's logical name returns the same definition; and a
collection constructed over a persisted blob of a different version
resolves every key to `undefined` (cold start, no error). -/
theorem c8_metadata_cache_roundtrip_and_version_mismatch :
    (∀ (c : EntityMetadataCollection) (e : String)
        (a : ControlAttributeDefinition),
      getAttribute (setAttribute c e a) e a.logicalName = some a) ∧
    (∀ store : EntityMetadataStore, store.version ≠ collectionVersion →
      ∀ e k,
        getAttribute (mkEntityMetadataCollection (some store)) e k = none) := by
  constructor
  · intro c e a
    simp only [getAttribute, setAttribute]
    rw [recGet_recordSet_same]
    simp only [Option.some_bind]
    exact recGet_recordSet_same _ _ _
  · intro store hv e k
    simp only [getAttribute, mkEntityMetadataCollection]
    rw [if_neg hv]
    simp [recGet]

/-- Witness for `c8_metadata_cache_roundtrip_and_version_mismatch`:
round-trip on a fresh collection and cold start over a version-2 blob whose
map held the same key. -/
theorem c8_metadata_cache_roundtrip_and_version_mismatch_witness :
    getAttribute
        (setAttribute (mkEntityMetadataCollection none) "account" c8Attr)
        "account" "name" = some c8Attr ∧
    c8BadVersionStore.version ≠ collectionVersion ∧
    getAttribute (mkEntityMetadataCollection (some c8BadVersionStore))
        "account" "name" = none :=
  ⟨c8_metadata_cache_roundtrip_and_version_mismatch.1
      (mkEntityMetadataCollection none) "account" c8Attr,
    by decide,
    c8_metadata_cache_roundtrip_and_version_mismatch.2 c8BadVersionStore
      (by decide) "account" "name"⟩

/-! ## Theorems: the change parser (C4, C7) -/

/-- C4 counterexample: an associate entry that also carries both (empty)
old/new value maps gets `changeData = some []` (defined: the source returns
an empty array, and empty objects are truthy) and a defined
`targetRecords`, so the two payloads are not mutually exclusive over all
inputs. -/
theorem c4_counterexample_both_payloads_defined :
    mkAuditDetailItem (fun _ => 0) 0 bothDefinedInput
      = .ok { auditRecord := parseAuditRecord (fun _ => 0) 0
                bothDefinedInput.AuditRecord,
              changeData := some [],
              targetRecords := some [associateTargetChange] } ∧
    (some ([] : List IRawChangeDataItem)).isSome = true ∧
    (some [associateTargetChange]).isSome = true :=
  ⟨rfl, rfl, rfl⟩

/-- C4 (amended): `changeData` and `targetRecords` can both be defined only
when the raw detail simultaneously carries both old/new value maps and a
`TargetRecords` list under action 33 or 34; for every other raw detail at
most one of the two is defined. -/
theorem c4_payloads_exclusive_unless_hybrid_input
    (dateParse : String → Int) (dateOid : Nat)
    (d : WebApiRecordChangeHistoryAuditDetail) (item : AuditDetailItem)
    (hmk : mkAuditDetailItem dateParse dateOid d = .ok item)
    (hcd : item.changeData ≠ none) (htr : item.targetRecords ≠ none) :
    d.OldValue ≠ none ∧ d.NewValue ≠ none ∧ d.TargetRecords ≠ none ∧
      (d.AuditRecord.action = associateEntitiesAction ∨
        d.AuditRecord.action = disassociateEntitiesAction) := by
  simp only [mkAuditDetailItem] at hmk
  cases hpt : parseTargetRecords d with
  | error e => rw [hpt] at hmk; cases hmk
  | ok tr =>
    rw [hpt] at hmk
    cases hmk
    simp only [ne_eq] at htr
    simp only [parseChangeData, ne_eq] at hcd
    have hov : d.OldValue ≠ none := by
      intro h
      rw [h] at hcd
      simp at hcd
    have hnv : d.NewValue ≠ none := by
      intro h
      rw [h] at hcd
      cases d.OldValue <;> simp at hcd
    refine ⟨hov, hnv, ?_, ?_⟩
    · intro h
      have h0 : parseTargetRecords d = Except.ok none := by
        simp [parseTargetRecords, h]
      rw [hpt] at h0
      simp at h0
      exact htr h0
    · by_cases ha : d.AuditRecord.action = associateEntitiesAction ∨
          d.AuditRecord.action = disassociateEntitiesAction
      · exact ha
      · exfalso
        cases ht : d.TargetRecords with
        | none =>
          have h0 : parseTargetRecords d = Except.ok none := by
            simp [parseTargetRecords, ht]
          rw [hpt] at h0
          simp at h0
          exact htr h0
        | some targets =>
          have h0 : parseTargetRecords d = Except.ok none := by
            simp [parseTargetRecords, ht, ha]
          rw [hpt] at h0
          simp at h0
          exact htr h0

/-- Witness for `c4_payloads_exclusive_unless_hybrid_input` at the
counterexample input (whose constructed item has both payloads defined, and
which indeed carries both value maps and a TargetRecords list under
action 33). -/
theorem c4_payloads_exclusive_unless_hybrid_input_witness :
    bothDefinedInput.OldValue ≠ none ∧ bothDefinedInput.NewValue ≠ none ∧
    bothDefinedInput.TargetRecords ≠ none ∧
      (bothDefinedInput.AuditRecord.action = associateEntitiesAction ∨
        bothDefinedInput.AuditRecord.action = disassociateEntitiesAction) :=
  c4_payloads_exclusive_unless_hybrid_input (fun _ => 0) 0 bothDefinedInput
    { auditRecord := parseAuditRecord (fun _ => 0) 0
        bothDefinedInput.AuditRecord,
      changeData := some [],
      targetRecords := some [associateTargetChange] }
    rfl (by decide) (by decide)

theorem removeFirstOccurrence_append (pat rest : List Char)
    (hp : pat ≠ []) : removeFirstOccurrence pat (pat ++ rest) = rest := by
  match pat, hp with
  | p :: ps, _ =>
    show removeFirstOccurrence (p :: ps) (p :: (ps ++ rest)) = rest
    simp only [removeFirstOccurrence]
    rw [if_pos]
    · show ((p :: ps) ++ rest).drop (p :: ps).length = rest
      exact List.drop_left _ _
    · exact List.isPrefixOf_iff_prefix.mpr (List.prefix_append _ _)

theorem jsReplaceFirst_namespace (t : String) :
    jsReplaceFirst (typeNamespacePrefix ++ t) typeNamespacePrefix = t := by
  show String.mk
    (removeFirstOccurrence typeNamespacePrefix.data
      (typeNamespacePrefix.data ++ t.data)) = t
  rw [removeFirstOccurrence_append _ _ (by decide)]

/-- C7: an associate (action 33) entry whose `TargetRecords` holds exactly
one item with a qualified `@odata.type` and a (truthy) value under the
first key ending in `"id"` yields exactly one target-record change, with
`newValue` carrying the populated lookup (the id value and the unqualified
type) and `oldValue` the empty placeholder. -/
theorem c7_associate_single_target (dateParse : String → Int) (dateOid : Nat)
    (d : WebApiRecordChangeHistoryAuditDetail)
    (tr : List (String × String)) (t idv : String)
    (haction : d.AuditRecord.action = associateEntitiesAction)
    (htargets : d.TargetRecords = some [tr])
    (htype : recGet tr odataTypeKey = some (typeNamespacePrefix ++ t))
    (hid : firstIdValue tr = some idv)
    (ht : t ≠ "") (hidv : idv ≠ "") :
    (mkAuditDetailItem dateParse dateOid d).map (·.targetRecords)
      = .ok (some [mkAssociateTargetChange t idv]) := by
  have hitems : parseTargetRecordsItems d.AuditRecord.action [tr]
      = .ok [mkAssociateTargetChange t idv] := by
    simp only [parseTargetRecordsItems, htype, hid, jsReplaceFirst_namespace,
      haction]
    rw [if_neg (by simp [ht, hidv])]
    simp only [mkAssociateTargetChange, parseTargetRecordsItemValue,
      associateEntitiesAction, disassociateEntitiesAction]
    norm_num
  have hpt : parseTargetRecords d
      = .ok (some [mkAssociateTargetChange t idv]) := by
    simp only [parseTargetRecords, htargets]
    rw [if_pos (Or.inl haction), hitems]
  simp [mkAuditDetailItem, hpt, Except.map]

/-- Witness for `c7_associate_single_target` at the concrete associate
detail `associateOnlyInput` (target type `account`, id `guid-1`). -/
theorem c7_associate_single_target_witness :
    (mkAuditDetailItem (fun _ => 0) 0 associateOnlyInput).map
        (·.targetRecords)
      = .ok (some [mkAssociateTargetChange "account" "guid-1"]) :=
  c7_associate_single_target (fun _ => 0) 0 associateOnlyInput
    associateTargetRecord "account" "guid-1" rfl rfl (by decide) (by decide)
    (by decide) (by decide)

/-! ## Theorems: merge tie-break (C3) -/

/-- C3: with `AuditDetailItem.comparer`, two items whose `createdOn` dates
denote the same instant but are (necessarily) distinct `Date` objects
compare `-1` in both directions — the `===` identity test never sees two
separately constructed dates as equal, contradicting the comparer's
documented "0 if equal" — and the merge therefore emits the second
stream's element before the accumulator's: the tie-break is "second stream
wins", not "first stream wins". -/
theorem c3_equal_timestamp_second_stream_wins :
    tieItemA.auditRecord.createdOn.time = tieItemB.auditRecord.createdOn.time ∧
    AuditDetailItem.comparer (some tieItemA) (some tieItemB) = -1 ∧
    AuditDetailItem.comparer (some tieItemB) (some tieItemA) = -1 ∧
    mergeSortedArrays [[tieItemA], [tieItemB]] AuditDetailItem.comparer
      = [some tieItemB, some tieItemA] ∧
    tieItemA ≠ tieItemB :=
  ⟨rfl, rfl, rfl, rfl, by decide⟩

/-! ## Theorems: the stream merger (C2) -/

theorem mergeLoop_step {T : Type} (cmp : Option T → Option T → Int)
    (fuel : Nat) (s t : List (Option T)) (h : s ≠ [] ∨ t ≠ []) :
    mergeLoop cmp (fuel + 1) s t
      = if 0 ≤ cmp (jsHead s) (jsHead t) then
          jsHead s :: mergeLoop cmp fuel s.tail t
        else jsHead t :: mergeLoop cmp fuel s t.tail := by
  cases s <;> cases t <;> simp_all [mergeLoop]

/-- With a comparer that sorts `undefined` last, the fuelled JS loop over
`map some` inputs computes the reference merge. -/
theorem mergeLoop_eq_mergeRec {T : Type} (cmp : Option T → Option T → Int)
    (h1 : ∀ a : T, 0 ≤ cmp (some a) none)
    (h2 : ∀ b : T, cmp none (some b) < 0) :
    ∀ (s t : List T),
      mergeLoop cmp (s.length + t.length) (s.map some) (t.map some)
        = (mergeRec cmp s t).map some
  | [], [] => by simp [mergeLoop, mergeRec]
  | [], y :: ys => by
    have hstep := mergeLoop_step cmp (([] : List T).length + ys.length)
      (([] : List T).map some) ((y :: ys).map some) (by simp)
    have hlen : ([] : List T).length + (y :: ys).length
        = (([] : List T).length + ys.length) + 1 := by
      simp only [List.length_nil, List.length_cons]
      try omega
    have ih := mergeLoop_eq_mergeRec cmp h1 h2 [] ys
    rw [hlen, hstep, if_neg (by simpa [jsHead] using by have := h2 y; omega)]
    simp only [jsHead, List.map, List.tail] at ih ⊢
    rw [ih]
    simp [mergeRec]
  | x :: xs, [] => by
    have hstep := mergeLoop_step cmp (xs.length + ([] : List T).length)
      ((x :: xs).map some) (([] : List T).map some) (by simp)
    have hlen : (x :: xs).length + ([] : List T).length
        = (xs.length + ([] : List T).length) + 1 := by
      simp only [List.length_nil, List.length_cons]
      try omega
    have ih := mergeLoop_eq_mergeRec cmp h1 h2 xs []
    rw [hlen, hstep, if_pos (by simpa [jsHead] using h1 x)]
    simp only [jsHead, List.map, List.tail] at ih ⊢
    rw [ih]
    cases xs <;> simp [mergeRec]
  | x :: xs, y :: ys => by
    by_cases hcmp : 0 ≤ cmp (some x) (some y)
    · have hstep := mergeLoop_step cmp (xs.length + (y :: ys).length)
        ((x :: xs).map some) ((y :: ys).map some) (by simp)
      have hlen : (x :: xs).length + (y :: ys).length
          = (xs.length + (y :: ys).length) + 1 := by
        simp only [List.length_cons]
        omega
      have ih := mergeLoop_eq_mergeRec cmp h1 h2 xs (y :: ys)
      rw [hlen, hstep, if_pos (by simpa [jsHead] using hcmp)]
      simp only [jsHead, List.map, List.tail] at ih ⊢
      rw [ih]
      simp [mergeRec, hcmp]
    · have hstep := mergeLoop_step cmp ((x :: xs).length + ys.length)
        ((x :: xs).map some) ((y :: ys).map some) (by simp)
      have hlen : (x :: xs).length + (y :: ys).length
          = ((x :: xs).length + ys.length) + 1 := by
        simp only [List.length_cons]
        omega
      have ih := mergeLoop_eq_mergeRec cmp h1 h2 (x :: xs) ys
      rw [hlen, hstep, if_neg (by simpa [jsHead] using hcmp)]
      simp only [jsHead, List.map, List.tail] at ih ⊢
      rw [ih]
      simp [mergeRec, hcmp]
termination_by s t => s.length + t.length

theorem mergeRec_perm {T : Type} (cmp : Option T → Option T → Int) :
    ∀ (s t : List T), (mergeRec cmp s t).Perm (s ++ t)
  | [], t => by simp [mergeRec]
  | x :: xs, [] => by simp [mergeRec]
  | x :: xs, y :: ys => by
    by_cases hcmp : 0 ≤ cmp (some x) (some y)
    · simp only [mergeRec, if_pos hcmp]
      exact (mergeRec_perm cmp xs (y :: ys)).cons x
    · simp only [mergeRec, if_neg hcmp]
      refine ((mergeRec_perm cmp (x :: xs) ys).cons y).trans ?_
      exact List.perm_middle.symm
termination_by s t => s.length + t.length

/-- Merging two descending chains yields a descending chain (given the
antisymmetry the accumulator-vs-merged branches rely on); the head of the
merge is one of the input heads. -/
theorem mergeRec_chain {T : Type} (cmp : Option T → Option T → Int)
    (h3 : ∀ a b : T, cmp (some a) (some b) < 0 → 0 ≤ cmp (some b) (some a)) :
    ∀ (s t : List T),
      List.Chain' (fun a b => 0 ≤ cmp (some a) (some b)) s →
      List.Chain' (fun a b => 0 ≤ cmp (some a) (some b)) t →
      List.Chain' (fun a b => 0 ≤ cmp (some a) (some b)) (mergeRec cmp s t) ∧
      (∀ z, (mergeRec cmp s t).head? = some z →
        s.head? = some z ∨ t.head? = some z)
  | [], t => fun _ ht => by
    constructor
    · simpa [mergeRec] using ht
    · intro z hz
      right
      simpa [mergeRec] using hz
  | x :: xs, [] => fun hs _ => by
    constructor
    · simpa [mergeRec] using hs
    · intro z hz
      left
      simpa [mergeRec] using hz
  | x :: xs, y :: ys => fun hs ht => by
    have hs' := List.chain'_cons'.mp hs
    have ht' := List.chain'_cons'.mp ht
    by_cases hcmp : 0 ≤ cmp (some x) (some y)
    · have ih := mergeRec_chain cmp h3 xs (y :: ys) hs'.2 ht
      constructor
      · simp only [mergeRec, if_pos hcmp]
        refine List.chain'_cons'.mpr ⟨?_, ih.1⟩
        intro z hz
        rcases ih.2 z hz with hzx | hzy
        · exact hs'.1 z hzx
        · simp only [List.head?_cons, Option.some.injEq] at hzy
          subst hzy
          exact hcmp
      · intro z hz
        simp only [mergeRec, if_pos hcmp, List.head?_cons,
          Option.some.injEq] at hz
        left
        simp [← hz]
    · have ih := mergeRec_chain cmp h3 (x :: xs) ys hs ht'.2
      constructor
      · simp only [mergeRec, if_neg hcmp]
        refine List.chain'_cons'.mpr ⟨?_, ih.1⟩
        intro z hz
        rcases ih.2 z hz with hzx | hzy
        · simp only [List.head?_cons, Option.some.injEq] at hzx
          subst hzx
          exact h3 x y (by omega)
        · exact ht'.1 z hzy
      · intro z hz
        simp only [mergeRec, if_neg hcmp, List.head?_cons,
          Option.some.injEq] at hz
        right
        simp [← hz]
termination_by s t => s.length + t.length

/-- The accumulator invariant of the `mergeSortedArrays` fold: the
accumulated array stays a `map some` image whose underlying list is a
permutation of everything merged so far and (for a comparator-like
comparer over sorted streams) stays descending. -/
theorem mergeFold_invariant {T : Type} (cmp : Option T → Option T → Int)
    (h1 : ∀ a : T, 0 ≤ cmp (some a) none)
    (h2 : ∀ b : T, cmp none (some b) < 0) :
    ∀ (rest : List (List T)) (acc : List T),
      ∃ l : List T,
        rest.foldl
          (fun sorted toMerge =>
            if toMerge.length = 0 then sorted
            else mergeLoop cmp (sorted.length + toMerge.length) sorted
              (toMerge.map some))
          (acc.map some) = l.map some ∧
        l.Perm (acc ++ rest.join) ∧
        ((∀ a b : T, cmp (some a) (some b) < 0 → 0 ≤ cmp (some b) (some a)) →
          List.Chain' (fun a b => 0 ≤ cmp (some a) (some b)) acc →
          (∀ s ∈ rest, List.Chain' (fun a b => 0 ≤ cmp (some a) (some b)) s) →
          List.Chain' (fun a b => 0 ≤ cmp (some a) (some b)) l)
  | [], acc => ⟨acc, by simp, by simp, fun _ h _ => h⟩
  | toMerge :: rest, acc => by
    by_cases hskip : toMerge.length = 0
    · have htm : toMerge = [] := List.length_eq_zero.mp hskip
      obtain ⟨l, hfold, hperm, hchain⟩ :=
        mergeFold_invariant cmp h1 h2 rest acc
      refine ⟨l, ?_, ?_, ?_⟩
      · simpa [hskip] using hfold
      · simpa [htm] using hperm
      · intro h3 hacc hall
        exact hchain h3 hacc (fun s hsm => hall s (by simp [hsm]))
    · obtain ⟨l, hfold, hperm, hchain⟩ :=
        mergeFold_invariant cmp h1 h2 rest (mergeRec cmp acc toMerge)
      refine ⟨l, ?_, ?_, ?_⟩
      · have hlen : (acc.map some).length + toMerge.length
            = acc.length + toMerge.length := by simp
        simpa [hskip, hlen, mergeLoop_eq_mergeRec cmp h1 h2 acc toMerge]
          using hfold
      · refine hperm.trans ?_
        have hmt : (mergeRec cmp acc toMerge ++ rest.join).Perm
            ((acc ++ toMerge) ++ rest.join) :=
          (mergeRec_perm cmp acc toMerge).append_right _
        refine hmt.trans ?_
        simp [List.append_assoc]
      · intro h3 hacc hall
        refine hchain h3 ?_ (fun s hsm => hall s (by simp [hsm]))
        exact (mergeRec_chain cmp h3 acc toMerge hacc
          (hall toMerge (by simp))).1

/-- The shape of every `mergeSortedArrays` result under a comparer that
sorts `undefined` last: a `map some` image of a permutation of the
concatenation of the streams, descending when the comparer is
comparator-like and the streams are descending. -/
theorem mergeSortedArrays_full {T : Type} (cmp : Option T → Option T → Int)
    (h1 : ∀ a : T, 0 ≤ cmp (some a) none)
    (h2 : ∀ b : T, cmp none (some b) < 0)
    (arrays : List (List T)) :
    ∃ l : List T,
      mergeSortedArrays arrays cmp = l.map some ∧
      l.Perm arrays.join ∧
      ((∀ a b : T, cmp (some a) (some b) < 0 → 0 ≤ cmp (some b) (some a)) →
        (∀ s ∈ arrays, sortedDescending cmp s) →
        sortedDescending cmp l) := by
  cases arrays with
  | nil => exact ⟨[], rfl, by simp, fun _ _ => List.chain'_nil⟩
  | cons first rest =>
    obtain ⟨l, hfold, hperm, hchain⟩ := mergeFold_invariant cmp h1 h2 rest first
    refine ⟨l, hfold, by simpa using hperm, ?_⟩
    intro h3 hall
    exact hchain h3 (hall first (by simp))
      (fun s hsm => hall s (by simp [hsm]))

/-- C2: for input streams each sorted descending consistently with a
comparer that behaves as a comparator (undefined sorts last; antisymmetric
on defined values), `mergeSortedArrays` returns a (fully defined) output
whose length is the sum of the stream lengths and which is sorted
descending with respect to the comparer. -/
theorem c2_mergeSortedArrays_length_and_sorted {T : Type}
    (arrays : List (List T)) (cmp : Option T → Option T → Int)
    (h1 : ∀ a : T, 0 ≤ cmp (some a) none)
    (h2 : ∀ b : T, cmp none (some b) < 0)
    (h3 : ∀ a b : T, cmp (some a) (some b) < 0 → 0 ≤ cmp (some b) (some a))
    (hs : ∀ s ∈ arrays, sortedDescending cmp s) :
    ∃ result : List T,
      mergeSortedArrays arrays cmp = result.map some ∧
      result.length = (arrays.map List.length).sum ∧
      sortedDescending cmp result := by
  obtain ⟨l, hout, hperm, hchain⟩ := mergeSortedArrays_full cmp h1 h2 arrays
  refine ⟨l, hout, ?_, hchain h3 hs⟩
  rw [hperm.length_eq]
  simp [List.length_join]

/-- Witness for `c2_mergeSortedArrays_length_and_sorted` on three concrete
integer streams (one empty) under `intOptionComparer`. -/
theorem c2_mergeSortedArrays_length_and_sorted_witness :
    ∃ result : List Int,
      mergeSortedArrays [[5, 3], [4, 1], []] intOptionComparer
        = result.map some ∧
      result.length = ([[5, 3], [4, 1], ([] : List Int)].map List.length).sum ∧
      sortedDescending intOptionComparer result :=
  c2_mergeSortedArrays_length_and_sorted [[5, 3], [4, 1], []]
    intOptionComparer
    (fun a => by simp [intOptionComparer])
    (fun b => by simp [intOptionComparer])
    (fun a b h => by
      simp only [intOptionComparer] at h ⊢
      by_cases hab : a = b
      · rw [if_pos hab] at h
        omega
      · rw [if_neg hab] at h
        by_cases hba : b < a
        · rw [if_pos hba] at h
          omega
        · rw [if_neg (fun hh : b = a => hab hh.symm), if_pos (by omega)]
          omega)
    (by
      intro s hsm
      simp only [List.mem_cons, List.not_mem_nil, or_false] at hsm
      rcases hsm with rfl | rfl | rfl <;>
        simp [sortedDescending, List.chain'_cons, intOptionComparer] <;>
        decide)

/-! ## Theorems: fetchAuditData action filter (C10) -/

theorem mkAuditDetailItem_ok_id (dateParse : String → Int) (dateOid : Nat)
    (d : WebApiRecordChangeHistoryAuditDetail) (item : AuditDetailItem)
    (h : mkAuditDetailItem dateParse dateOid d = .ok item) :
    item.auditRecord.id = d.AuditRecord.auditid := by
  simp only [mkAuditDetailItem] at h
  cases hpt : parseTargetRecords d with
  | error e => rw [hpt] at h; cases h
  | ok tr =>
    rw [hpt] at h
    cases h
    rfl

theorem buildEntityAuditDetails_ids (dateParse : String → Int) :
    ∀ (oid : Nat) (details : List WebApiRecordChangeHistoryAuditDetail)
      (items : List AuditDetailItem) (oidAfter : Nat),
      buildEntityAuditDetails dateParse oid details = .ok (items, oidAfter) →
      items.map (·.auditRecord.id)
        = (details.filter
            (fun d => !(isUnsupportedAction d.AuditRecord.action))).map
          (·.AuditRecord.auditid)
  | oid, [], items, oidAfter => by
    intro h
    simp only [buildEntityAuditDetails] at h
    cases h
    rfl
  | oid, d :: rest, items, oidAfter => by
    intro h
    simp only [buildEntityAuditDetails] at h
    by_cases hu : isUnsupportedAction d.AuditRecord.action
    · rw [if_pos hu] at h
      have ih := buildEntityAuditDetails_ids dateParse oid rest items oidAfter h
      simp [List.filter_cons, hu, ih]
    · rw [if_neg hu] at h
      cases hmk : mkAuditDetailItem dateParse oid d with
      | error e =>
        simp only [hmk] at h
        simp at h
      | ok item =>
        simp only [hmk] at h
        cases hrec : buildEntityAuditDetails dateParse (oid + 1) rest with
        | error e =>
          simp only [hrec] at h
          simp at h
        | ok p =>
          obtain ⟨items', oidMid⟩ := p
          simp only [hrec, Except.ok.injEq, Prod.mk.injEq] at h
          obtain ⟨hitems, hoid⟩ := h
          subst hitems
          have ih := buildEntityAuditDetails_ids dateParse (oid + 1) rest
            items' oidMid hrec
          simp [List.filter_cons, hu, ih,
            mkAuditDetailItem_ok_id dateParse oid d item hmk]

theorem buildAuditDetailCollections_ids (dateParse : String → Int) :
    ∀ (oid : Nat) (responses : List RetrieveRecordChangeHistoryResponse)
      (colls : List (List AuditDetailItem)),
      buildAuditDetailCollections dateParse oid responses = .ok colls →
      colls.join.map (·.auditRecord.id)
        = ((responses.map
              (·.AuditDetailCollection.AuditDetails)).join.filter
            (fun d => !(isUnsupportedAction d.AuditRecord.action))).map
          (·.AuditRecord.auditid)
  | oid, [], colls => by
    intro h
    simp only [buildAuditDetailCollections] at h
    cases h
    rfl
  | oid, r :: rest, colls => by
    intro h
    simp only [buildAuditDetailCollections] at h
    cases hent : buildEntityAuditDetails dateParse oid
        r.AuditDetailCollection.AuditDetails with
    | error e =>
      simp only [hent] at h
      simp at h
    | ok p =>
      obtain ⟨items, oidMid⟩ := p
      simp only [hent] at h
      cases hrec : buildAuditDetailCollections dateParse oidMid rest with
      | error e =>
        simp only [hrec, Except.map] at h
        simp at h
      | ok colls' =>
        simp only [hrec, Except.map, Except.ok.injEq] at h
        subst h
        have ih := buildAuditDetailCollections_ids dateParse oidMid rest
          colls' hrec
        have hids := buildEntityAuditDetails_ids dateParse oid
          r.AuditDetailCollection.AuditDetails items oidMid hent
        simp [List.join, List.filter_append, ih, hids]

theorem comparer_some_none (a : AuditDetailItem) :
    0 ≤ AuditDetailItem.comparer (some a) none := by
  simp [AuditDetailItem.comparer]

theorem comparer_none_some (b : AuditDetailItem) :
    AuditDetailItem.comparer none (some b) < 0 := by
  simp [AuditDetailItem.comparer]

/-- C10: whenever `parseAuditDetailItems` (the list `fetchAuditData`
returns as `auditDetailItems`) succeeds, its output is a fully defined
permutation of one constructed `AuditDetailItem` per fetched entry whose
action is not an unsupported system-audit action — tracked here by audit
record ids — and the unsupported actions are exactly
`{105, 106, 107, 108, 109, 110, 111}`. -/
theorem c10_parseAuditDetailItems_filters_unsupported
    (dateParse : String → Int)
    (responses : List RetrieveRecordChangeHistoryResponse)
    (out : List (Option AuditDetailItem))
    (h : parseAuditDetailItems dateParse responses = .ok out) :
    (∀ a : Int, isUnsupportedAction a = true ↔
      (a = 105 ∨ a = 106 ∨ a = 107 ∨ a = 108 ∨ a = 109 ∨ a = 110 ∨
        a = 111)) ∧
    ∃ l : List AuditDetailItem, out = l.map some ∧
      (l.map (·.auditRecord.id)).Perm
        (((responses.map
              (·.AuditDetailCollection.AuditDetails)).join.filter
            (fun d => !(isUnsupportedAction d.AuditRecord.action))).map
          (·.AuditRecord.auditid)) := by
  constructor
  · intro a
    simp only [isUnsupportedAction, unsupportedActions,
      lookupUnsupportedAction]
    split_ifs with h5 h6 h7 h8 h9 h10 h11
    · subst h5; decide
    · subst h6; decide
    · subst h7; decide
    · subst h8; decide
    · subst h9; decide
    · subst h10; decide
    · subst h11; decide
    · simp only [jsTruthyStr, Bool.false_eq_true, false_iff]
      intro hh
      rcases hh with hh | hh | hh | hh | hh | hh | hh <;> omega
  · simp only [parseAuditDetailItems] at h
    cases hb : buildAuditDetailCollections dateParse 0 responses with
    | error e => rw [hb] at h; cases h
    | ok colls =>
      rw [hb] at h
      cases h
      obtain ⟨l, hout, hperm, _⟩ := mergeSortedArrays_full
        AuditDetailItem.comparer comparer_some_none comparer_none_some colls
      refine ⟨l, hout, ?_⟩
      rw [← buildAuditDetailCollections_ids dateParse 0 responses colls hb]
      exact hperm.map (·.auditRecord.id)

/-- Witness for `c10_parseAuditDetailItems_filters_unsupported` at one
response holding an action-105 entry (dropped) and an action-1 entry
(kept). -/
theorem c10_parseAuditDetailItems_filters_unsupported_witness :
    (∀ a : Int, isUnsupportedAction a = true ↔
      (a = 105 ∨ a = 106 ∨ a = 107 ∨ a = 108 ∨ a = 109 ∨ a = 110 ∨
        a = 111)) ∧
    ∃ l : List AuditDetailItem,
      mergeSortedArrays
          [[{ auditRecord := parseAuditRecord (fun _ => 0) 0
                c10SupportedDetail.AuditRecord,
              changeData := none, targetRecords := none }]]
          AuditDetailItem.comparer = l.map some ∧
      (l.map (·.auditRecord.id)).Perm
        (((c10Responses.map
              (·.AuditDetailCollection.AuditDetails)).join.filter
            (fun d => !(isUnsupportedAction d.AuditRecord.action))).map
          (·.AuditRecord.auditid)) :=
  c10_parseAuditDetailItems_filters_unsupported (fun _ => 0) c10Responses _
    rfl

/-! ## Theorems: metadata gap analysis (C9) and fail-fast enrichment (C5) -/

/-- C9: the batch gap analysis issues a metadata request for entity type
`"a"` although nothing of `"a"` is missing (its display name and
primary-name attribute are cached and no attribute keys were collected):
the single `emptyRequiredMetadataValue` object created before the
target-record loop is shared between every entity name first seen in that
loop, so setting `doFetchEntityLevelMetadata` for `"b"` also sets it for
`"a"`. -/
theorem c9_shared_cell_requests_cached_entity :
    buildEntityMetadataRequests c9Store [c9Row]
      = [{ entityLogicalName := "a", attributeLogicalNames := [] },
         { entityLogicalName := "b", attributeLogicalNames := [] }] ∧
    (getEntityDisplayName c9Store "a").isSome = true ∧
    (getEntityPrimaryNameAttribute c9Store "a").isSome = true ∧
    getEntityDisplayName c9Store "b" = none :=
  ⟨rfl, rfl, rfl, rfl⟩

theorem collectResults_error_mem {ε α : Type} :
    ∀ (l : List (Except ε α)) (e : ε),
      collectResults l = .error e → Except.error e ∈ l
  | [], e => by
    intro h
    simp [collectResults] at h
  | r :: rest, e => by
    intro h
    simp only [collectResults] at h
    cases r with
    | error e' =>
      simp only [Except.error.injEq] at h
      subst h
      simp
    | ok a =>
      cases hrec : collectResults rest with
      | error e'' =>
        rw [hrec] at h
        simp only [Except.map, Except.error.injEq] at h
        subst h
        exact List.mem_cons_of_mem _ (collectResults_error_mem rest _ hrec)
      | ok rs =>
        rw [hrec] at h
        simp [Except.map] at h

theorem collectResults_error_of_mem {ε α : Type} :
    ∀ (l : List (Except ε α)),
      (∃ x ∈ l, ∃ e : ε, x = .error e) →
      ∃ e : ε, collectResults l = .error e
  | [] => by
    intro h
    simp at h
  | r :: rest => by
    intro h
    cases r with
    | error e' => exact ⟨e', by simp [collectResults]⟩
    | ok a =>
      obtain ⟨x, hx, e, hxe⟩ := h
      rcases List.mem_cons.mp hx with rfl | hx'
      · cases hxe
      · obtain ⟨e'', hrec⟩ :=
          collectResults_error_of_mem rest ⟨x, hx', e, hxe⟩
        exact ⟨e'', by simp [collectResults, hrec, Except.map]⟩

/-- C5: if any of the per-entity-type metadata fetches rejects, the whole
`enrichRowData` pass throws a single `ControlOperationalError` wrapping one
of the rejection causes, and the state — metadata cache (in memory and
persisted) and display-name cache alike — is exactly the input state: no
partial application of the batch's results. -/
theorem c5_enrichRowData_failfast_preserves_state {ε : Type}
    (fetchEntityMetadata : ServiceFetchEntityMetadataRequest →
      Except ε ServiceFetchEntityMetadataResponse)
    (fetchMultipleRecords : ServiceFetchMultipleEntitiesRequest →
      Except ε ServiceFetchMultipleEntitiesResponse)
    (st : AuditTableDataState)
    (h : ∃ req ∈ buildEntityMetadataRequests st.entityMetadataStore
        st.rawRowData, ∃ e : ε, fetchEntityMetadata req = .error e) :
    ∃ cause : ε,
      enrichRowData fetchEntityMetadata fetchMultipleRecords st
        = (.error { messageForUsers := "Failed to fetch entity metadata", originalError := some cause }, st) ∧
      ∃ req ∈ buildEntityMetadataRequests st.entityMetadataStore
        st.rawRowData, fetchEntityMetadata req = .error cause := by
  obtain ⟨cause, hcol⟩ := collectResults_error_of_mem
    ((buildEntityMetadataRequests st.entityMetadataStore
      st.rawRowData).map fetchEntityMetadata)
    (by
      obtain ⟨req, hreq, e, he⟩ := h
      exact ⟨fetchEntityMetadata req, List.mem_map_of_mem _ hreq, e,
        by rw [he]⟩)
  refine ⟨cause, ?_, ?_⟩
  · simp only [enrichRowData, executeFetchMetadataRequests, hcol]
  · have hmem := collectResults_error_mem _ _ hcol
    obtain ⟨req, hreq, hfetch⟩ := List.mem_map.mp hmem
    exact ⟨req, hreq, hfetch⟩

/-- Witness for `c5_enrichRowData_failfast_preserves_state`: a state whose
single row needs attribute metadata for `account.name`, with a metadata
fetcher that always rejects with `"boom"`. -/
theorem c5_enrichRowData_failfast_preserves_state_witness :
    ∃ cause : String,
      enrichRowData (fun _ => .error "boom")
          (fun _ => .error "unused") c5State
        = (.error { messageForUsers := "Failed to fetch entity metadata", originalError := some cause }, c5State) ∧
      ∃ req ∈ buildEntityMetadataRequests c5State.entityMetadataStore
        c5State.rawRowData,
        ((fun _ => .error "boom") : ServiceFetchEntityMetadataRequest →
            Except String ServiceFetchEntityMetadataResponse) req
          = .error cause :=
  by
  refine c5_enrichRowData_failfast_preserves_state (fun _ => .error "boom")
    (fun _ => .error "unused") c5State ?_
  refine ⟨{ entityLogicalName := "account", attributeLogicalNames := ["name"] },
    ?_, "boom", rfl⟩
  decide

end ExpandedAuditingControl
